import Mathlib

/-!
Shallow embedding of the session-orchestration core of pymap
(`src/pymap/backend/session.py`, class `KeyValSession`), together with
models of the external collaborators it calls (mailbox store, mailboxes,
selected-mailbox views, events), which are specified only at their
interface boundary.

Stateful Python code is embedded as explicit state passing: every
session operation takes the mailbox store and returns the (possibly
updated) store together with an `Except` result; a Python exception
raised partway through leaves the mutations already performed in the
returned store, matching Python semantics.
-/

/-- Message flags.  `Seen` and `Deleted` are the two flags the session
core inspects by name; all other flags are opaque. -/
inductive MsgFlag where
  | Seen : MsgFlag
  | Deleted : MsgFlag
  | Other : Nat → MsgFlag
deriving DecidableEq, Repr

/-- A message in a mailbox: UID, durable permanent flags, and the
transient recency marker. -/
structure KeyValMessage where
  uid : Nat
  permanent_flags : List MsgFlag
  recent : Bool
deriving DecidableEq, Repr

/-- Modelled from the spec: per-view session-local flags — the set of
UIDs this view holds as recent, plus a per-UID session flag map. -/
structure SessionFlags where
  recent : List Nat
  flags : List (Nat × List MsgFlag)
deriving DecidableEq, Repr

/-- Modelled from the spec: record a UID as recent in this view's
session flags (idempotent). -/
def SessionFlags.add_recent (sf : SessionFlags) (uid : Nat) : SessionFlags :=
  if uid ∈ sf.recent then sf else { sf with recent := sf.recent ++ [uid] }

/-- Apply a flag operation (replace / add / remove), as in pymap's
`FlagOp`. -/
inductive FlagOp where
  | replace : FlagOp
  | add : FlagOp
  | remove : FlagOp
deriving DecidableEq, Repr

/-- Modelled from the spec: apply a flag operation to a flag set. -/
def applyFlagOp (current new : List MsgFlag) : FlagOp → List MsgFlag
  | FlagOp.replace => new
  | FlagOp.add => current ++ new.filter (fun f => !(current.contains f))
  | FlagOp.remove => current.filter (fun f => !(new.contains f))

/-- Modelled from the spec: update the per-UID session flag entry of a
view via the requested flag operation. -/
def SessionFlags.update (sf : SessionFlags) (uid : Nat) (fs : List MsgFlag)
    (mode : FlagOp) : SessionFlags :=
  let cur := ((sf.flags.find? (fun p => p.1 == uid)).map (fun p => p.2)).getD []
  { sf with flags :=
      sf.flags.filter (fun p => p.1 != uid) ++ [(uid, applyFlagOp cur fs mode)] }

/-- One session's view of a selected mailbox (`pymap.selected.SelectedMailbox`,
modelled from the spec): name, read-only marker, cached UID validity,
session flags, membership cache, and the sticky deleted marker. -/
structure SelectedMailbox where
  name : String
  readonly : Bool
  uid_validity : Option Nat
  deleted : Bool
  session_flags : SessionFlags
  messages : List (Nat × List MsgFlag)
deriving DecidableEq, Repr

/-- A freshly constructed view, as built by `SelectedMailbox(name, readonly, ...)`. -/
def SelectedMailbox.fresh (name : String) (readonly : Bool) : SelectedMailbox :=
  { name := name, readonly := readonly, uid_validity := none,
    deleted := false, session_flags := ⟨[], []⟩, messages := [] }

/-- Mark the view's mailbox as deleted (`SelectedMailbox.set_deleted`). -/
def SelectedMailbox.set_deleted (v : SelectedMailbox) : SelectedMailbox :=
  { v with deleted := true }

/-- Modelled from the spec: refresh the view's cached UID validity.
The deleted marker is terminal, so a deleted view ignores the update. -/
def SelectedMailbox.set_uid_validity (v : SelectedMailbox) (u : Nat) :
    SelectedMailbox :=
  if v.deleted then v else { v with uid_validity := some u }

/-- Modelled from the spec: merge one `(uid, permanentFlags)` pair into
the view's membership cache (upsert; session flags untouched).  The
deleted marker is terminal, so a deleted view ignores the update. -/
def SelectedMailbox.add_messages (v : SelectedMailbox) (p : Nat × List MsgFlag) :
    SelectedMailbox :=
  if v.deleted then v
  else { v with messages := v.messages.filter (fun q => q.1 != p.1) ++ [p] }

/-- Modelled from the spec: a mailbox as the session core sees it —
name, UID validity, read-only marker, next UID to assign, messages,
flag vocabularies, the selection registry's choice of a currently
selected view (if any), and the change signal. -/
structure KeyValMailbox where
  name : String
  uid_validity : Nat
  readonly : Bool
  uid_next : Nat
  messages : List KeyValMessage
  permanent_flags_vocab : List MsgFlag
  session_flags_vocab : List MsgFlag
  any_selected : Option SelectedMailbox
  updated : Bool
deriving DecidableEq, Repr

/-- Modelled from the spec: a freshly created, empty, writable mailbox. -/
def KeyValMailbox.new_mailbox (name : String) (validity : Nat) : KeyValMailbox :=
  { name := name, uid_validity := validity, readonly := false, uid_next := 1,
    messages := [], permanent_flags_vocab := [MsgFlag.Seen, MsgFlag.Deleted],
    session_flags_vocab := [], any_selected := none, updated := false }

/-- Modelled from the spec: add a message with the given recency,
assigning the next UID, and return the stored message. -/
def KeyValMailbox.add (mbx : KeyValMailbox) (msg : KeyValMessage)
    (recent : Bool) : KeyValMailbox × KeyValMessage :=
  let m := { msg with uid := mbx.uid_next, recent := recent }
  ({ mbx with uid_next := mbx.uid_next + 1, messages := mbx.messages ++ [m] }, m)

/-- Modelled from the spec: delete the message with the given UID. -/
def KeyValMailbox.delete (mbx : KeyValMailbox) (uid : Nat) : KeyValMailbox :=
  { mbx with messages := mbx.messages.filter (fun m => m.uid != uid) }

/-- Find a saved message by UID in a batch handed to `save_flags`. -/
def findByUid : List KeyValMessage → Nat → Option KeyValMessage
  | [], _ => none
  | x :: rest, uid => if x.uid = uid then some x else findByUid rest uid

/-- Modelled from the spec: persist flag changes for a batch of
messages — each stored message whose UID appears in the batch is
replaced by its updated version. -/
def KeyValMailbox.save_flags (mbx : KeyValMailbox) (msgs : List KeyValMessage) :
    KeyValMailbox :=
  { mbx with messages := mbx.messages.map (fun m => (findByUid msgs m.uid).getD m) }

/-- The `(uid, permanentFlags)` stream of `mbx.items()`. -/
def KeyValMailbox.items (mbx : KeyValMailbox) : List (Nat × List MsgFlag) :=
  mbx.messages.map (fun m => (m.uid, m.permanent_flags))

/-- Modelled from the spec: storage-level housekeeping; no effect on
the session-visible mailbox state. -/
def KeyValMailbox.cleanup (mbx : KeyValMailbox) : KeyValMailbox := mbx

/-- Modelled from the spec: build a message from protocol append data
(`mbx.parse_message`); the UID is assigned later by `add`. -/
structure AppendMessage where
  flag_set : List MsgFlag
deriving DecidableEq, Repr

def KeyValMailbox.parse_message (_mbx : KeyValMailbox) (am : AppendMessage) :
    KeyValMessage :=
  { uid := 0, permanent_flags := am.flag_set, recent := false }

/-- Point-in-time mailbox summary (`mbx.snapshot()`). -/
structure MailboxSnapshot where
  exists_count : Nat
  max_uid : Nat
deriving DecidableEq, Repr

def KeyValMailbox.snapshot (mbx : KeyValMailbox) : MailboxSnapshot :=
  ⟨mbx.messages.length, (mbx.messages.map (fun m => m.uid)).foldr max 0⟩

/-- Domain errors raised by the session core. -/
inductive PymapError where
  | mailboxNotFound : String → PymapError
  | mailboxReadOnly : String → PymapError
deriving DecidableEq, Repr

/-- Modelled from the spec: the mailbox store, resolving names to
mailbox handles.  In the source this is the role the `inbox` handle
plays for `KeyValSession`. -/
structure MailboxStore where
  mailboxes : List KeyValMailbox
  next_uid_validity : Nat
deriving DecidableEq, Repr

/-- Name-based lookup in the store's mailbox list. -/
def lookupMailbox : List KeyValMailbox → String → Option KeyValMailbox
  | [], _ => none
  | m :: rest, name => if m.name = name then some m else lookupMailbox rest name

/-- Write a mailbox back into the list, replacing entries of the same name. -/
def putMailbox : List KeyValMailbox → KeyValMailbox → List KeyValMailbox
  | [], _ => []
  | m :: rest, mbx =>
      if m.name = mbx.name then mbx :: putMailbox rest mbx
      else m :: putMailbox rest mbx

/-- Modelled from the spec: resolve a mailbox by name, or a NotFound error. -/
def MailboxStore.get_mailbox (s : MailboxStore) (name : String) :
    Except PymapError KeyValMailbox :=
  match lookupMailbox s.mailboxes name with
  | some m => Except.ok m
  | none => Except.error (PymapError.mailboxNotFound name)

/-- Modelled from the spec: resolve a mailbox by name, creating it
(empty, writable, fresh UID validity) when absent — the
`try_create=True` variant of resolution. -/
def MailboxStore.get_mailbox_try_create (s : MailboxStore) (name : String) :
    MailboxStore × KeyValMailbox :=
  match lookupMailbox s.mailboxes name with
  | some m => (s, m)
  | none =>
      let m := KeyValMailbox.new_mailbox name s.next_uid_validity
      ({ s with mailboxes := s.mailboxes ++ [m],
                next_uid_validity := s.next_uid_validity + 1 }, m)

/-- Write an updated mailbox back into the store. -/
def MailboxStore.put (s : MailboxStore) (mbx : KeyValMailbox) : MailboxStore :=
  { s with mailboxes := putMailbox s.mailboxes mbx }

/-- Stream all of a mailbox's `(uid, permanentFlags)` pairs into the
view's reconciliation step, after refreshing its UID validity — the
body of the successful branch of `KeyValSession._load_updates`. -/
def SelectedMailbox.sync_from (v : SelectedMailbox) (mbx : KeyValMailbox) :
    SelectedMailbox :=
  mbx.items.foldl SelectedMailbox.add_messages (v.set_uid_validity mbx.uid_validity)

/-- `KeyValSession._load_updates` for a present view: if the supplied
mailbox handle is absent or names a different mailbox, re-resolve by
the view's name; on NotFound mark the view deleted and return it
immediately, otherwise synchronize the view from the mailbox. -/
def KeyValSession.load_updates_some (s : MailboxStore) (sel : SelectedMailbox)
    (mbx? : Option KeyValMailbox) : SelectedMailbox :=
  match mbx? with
  | some mbx =>
    if sel.name = mbx.name then sel.sync_from mbx
    else
      match s.get_mailbox sel.name with
      | Except.error _ => sel.set_deleted
      | Except.ok mbx2 => sel.sync_from mbx2
  | none =>
    match s.get_mailbox sel.name with
    | Except.error _ => sel.set_deleted
    | Except.ok mbx2 => sel.sync_from mbx2

/-- `KeyValSession._load_updates`: an absent view stays absent. -/
def KeyValSession.load_updates (s : MailboxStore) (sel? : Option SelectedMailbox)
    (mbx? : Option KeyValMailbox) : Option SelectedMailbox :=
  sel?.map (fun sel => KeyValSession.load_updates_some s sel mbx?)

/-- `KeyValSession._find_selected`: the caller's own view when it
refers to the mailbox by name, else the registry's choice of any
currently selected view. -/
def KeyValSession.find_selected (selected : Option SelectedMailbox)
    (mbx : KeyValMailbox) : Option SelectedMailbox :=
  match selected with
  | some sel => if sel.name = mbx.name then some sel else mbx.any_selected
  | none => mbx.any_selected

/-- The three ways the composed wait of `_wait_for_updates` can
complete: the caller-supplied wake signal fires, the mailbox's change
signal fires, or the 10-time-unit ceiling expires. -/
inductive WaitOutcome where
  | wait_on_fired : WaitOutcome
  | change_signal_fired : WaitOutcome
  | timed_out : WaitOutcome
deriving DecidableEq, Repr

inductive ConcurrencyError where
  | timeout_error : ConcurrencyError
deriving DecidableEq, Repr

/-- Modelled from the spec: `wait_on.or_event(updated).wait(timeout=10.0)`
completes normally when either event fires and raises the timeout
error when the ceiling expires first. -/
def Event.or_event_wait (_timeout : Nat) : WaitOutcome → Except ConcurrencyError Unit
  | WaitOutcome.wait_on_fired => Except.ok ()
  | WaitOutcome.change_signal_fired => Except.ok ()
  | WaitOutcome.timed_out => Except.error ConcurrencyError.timeout_error

/-- `KeyValSession._wait_for_updates`: perform the composed wait with a
10-unit ceiling and swallow the timeout error. -/
def KeyValSession.wait_for_updates (outcome : WaitOutcome) :
    Except ConcurrencyError Unit :=
  match Event.or_event_wait 10 outcome with
  | Except.ok _ => Except.ok ()
  | Except.error ConcurrencyError.timeout_error => Except.ok ()

/-- Modelled from the spec: a sequence/UID selector.  `is_all` is the
match-everything selector (`SequenceSet.all`); otherwise `ids` lists
the matched sequence numbers (or UIDs when `uid` is set). -/
structure SequenceSet where
  uid : Bool
  ids : List Nat
  is_all : Bool
deriving DecidableEq, Repr

def SequenceSet.all (uid : Bool) : SequenceSet :=
  { uid := uid, ids := [], is_all := true }

def SequenceSet.matches (ss : SequenceSet) (seq uid : Nat) : Bool :=
  ss.is_all || (if ss.uid then ss.ids.contains uid else ss.ids.contains seq)

/-- Enumerate messages with 1-based sequence numbers. -/
def enumMessagesFrom : Nat → List KeyValMessage → List (Nat × KeyValMessage)
  | _, [] => []
  | n, m :: rest => (n, m) :: enumMessagesFrom (n + 1) rest

/-- Modelled from the spec: find the `(sequence, message)` pairs
matching a sequence/UID selector. -/
def KeyValMailbox.find (mbx : KeyValMailbox) (ss : SequenceSet) :
    List (Nat × KeyValMessage) :=
  (enumMessagesFrom 1 mbx.messages).filter (fun p => ss.matches p.1 p.2.uid)

/-- A fetch attribute; the session core only inspects whether it
implies marking matched messages seen. -/
structure FetchAttribute where
  set_seen : Bool
deriving DecidableEq, Repr

/-- Insert a flag into a flag set if not already present
(`permanent_flags.add(...)`). -/
def addFlag (fs : List MsgFlag) (f : MsgFlag) : List MsgFlag :=
  if f ∈ fs then fs else fs ++ [f]

/-- The `APPENDUID` response data: destination UID validity plus the
newly assigned UIDs. -/
structure AppendUid where
  uid_validity : Nat
  uids : List Nat
deriving DecidableEq, Repr

/-- The `COPYUID` response data: destination UID validity plus the
`(sourceUid, destUid)` pairs. -/
structure CopyUid where
  uid_validity : Nat
  pairs : List (Nat × Nat)
deriving DecidableEq, Repr

/-- One iteration of the append loop: add the parsed message with
recency `not dest_selected`, record its UID as recent in the
destination view when one exists, and collect the assigned UID. -/
def appendStep (hasDest : Bool)
    (st : KeyValMailbox × Option SelectedMailbox × List Nat)
    (am : AppendMessage) : KeyValMailbox × Option SelectedMailbox × List Nat :=
  let added := st.1.add (st.1.parse_message am) (!hasDest)
  (added.1,
   st.2.1.map (fun d =>
     { d with session_flags := d.session_flags.add_recent added.2.uid }),
   st.2.2 ++ [added.2.uid])

/-- `KeyValSession.append_messages`: resolve the destination with
`try_create`, reject a read-only destination, attribute recency via
`_find_selected`, append every message, fire the change signal, and
return the `APPENDUID` data plus the refreshed caller view. -/
def KeyValSession.append_messages (s : MailboxStore) (name : String)
    (messages : List AppendMessage) (selected : Option SelectedMailbox) :
    MailboxStore × Except PymapError (AppendUid × Option SelectedMailbox) :=
  let r0 := s.get_mailbox_try_create name
  let s1 := r0.1
  let mbx0 := r0.2
  if mbx0.readonly then
    (s1, Except.error (PymapError.mailboxReadOnly name))
  else
    let dest0 := KeyValSession.find_selected selected mbx0
    let r := messages.foldl (appendStep dest0.isSome) (mbx0, dest0, [])
    let callerIsDest : Bool :=
      match selected with
      | some sel => sel.name = mbx0.name
      | none => false
    let selected1 := if callerIsDest then r.2.1 else selected
    let mbxF := { r.1 with
      any_selected := if callerIsDest then r.1.any_selected else r.2.1,
      updated := true }
    let s2 := s1.put mbxF
    (s2, Except.ok (⟨mbxF.uid_validity, r.2.2⟩,
      KeyValSession.load_updates s2 selected1 (some mbxF)))

/-- One iteration of the writable-select loop over recent messages:
claim the message's recency into the new view's session flags. -/
def claimRecentStep (v : SelectedMailbox) (m : KeyValMessage) : SelectedMailbox :=
  { v with session_flags := v.session_flags.add_recent m.uid }

/-- `KeyValSession.select_mailbox`: resolve the mailbox, build a fresh
view whose read-only marker is the disjunction of the request and the
mailbox's own marker; when writable, claim every recent message's
recency into the view's session flags and durably clear the messages'
recent markers; return a snapshot plus the synchronized view. -/
def KeyValSession.select_mailbox (s : MailboxStore) (name : String)
    (readonly : Bool) :
    MailboxStore × Except PymapError (MailboxSnapshot × SelectedMailbox) :=
  match s.get_mailbox name with
  | Except.error e => (s, Except.error e)
  | Except.ok mbx =>
    let selected := SelectedMailbox.fresh name (readonly || mbx.readonly)
    if selected.readonly then
      (s, Except.ok (mbx.snapshot,
        KeyValSession.load_updates_some s selected (some mbx)))
    else
      let recent_msgs := mbx.messages.filter (fun m => m.recent)
      let selected1 := recent_msgs.foldl claimRecentStep selected
      let cleared := recent_msgs.map (fun m => { m with recent := false })
      let mbx1 := mbx.save_flags cleared
      let s1 := s.put mbx1
      (s1, Except.ok (mbx1.snapshot,
        KeyValSession.load_updates_some s1 selected1 (some mbx1)))

/-- `KeyValSession.check_mailbox`: re-resolve the mailbox (NotFound
propagates), optionally run housekeeping and the bounded change-wait,
then synchronize the view. -/
def KeyValSession.check_mailbox (s : MailboxStore) (selected : SelectedMailbox)
    (wait_outcome : Option WaitOutcome) (housekeeping : Bool) :
    MailboxStore × Except PymapError SelectedMailbox :=
  match s.get_mailbox selected.name with
  | Except.error e => (s, Except.error e)
  | Except.ok mbx =>
    let mbx1 := if housekeeping then mbx.cleanup else mbx
    match wait_outcome with
    | some oc =>
      match KeyValSession.wait_for_updates oc with
      | Except.ok _ =>
        (s, Except.ok (KeyValSession.load_updates_some s selected (some mbx1)))
      | Except.error _ => (s, Except.ok
          (KeyValSession.load_updates_some s selected (some mbx1)))
    | none =>
      (s, Except.ok (KeyValSession.load_updates_some s selected (some mbx1)))

/-- `KeyValSession.fetch_messages`: re-resolve the mailbox (NotFound
propagates), collect the matched messages, and when the view is
writable and some attribute implies mark-seen, add `Seen` to every
matched message and persist it via `save_flags` before returning. -/
def KeyValSession.fetch_messages (s : MailboxStore) (selected : SelectedMailbox)
    (sequence_set : SequenceSet) (attributes : List FetchAttribute) :
    MailboxStore ×
      Except PymapError (List (Nat × KeyValMessage) × SelectedMailbox) :=
  match s.get_mailbox selected.name with
  | Except.error e => (s, Except.error e)
  | Except.ok mbx =>
    let ret := mbx.find sequence_set
    if !selected.readonly && attributes.any (fun a => a.set_seen) then
      let ret1 := ret.map (fun p =>
        (p.1, { p.2 with permanent_flags := addFlag p.2.permanent_flags MsgFlag.Seen }))
      let mbx1 := mbx.save_flags (ret1.map (fun p => p.2))
      let s1 := s.put mbx1
      (s1, Except.ok (ret1,
        KeyValSession.load_updates_some s1 selected (some mbx1)))
    else
      (s, Except.ok (ret, KeyValSession.load_updates_some s selected (some mbx)))

/-- `KeyValSession.expunge_mailbox`: reject a read-only view before any
mutation, else delete every matched message bearing `Deleted`, fire the
change signal, and synchronize. -/
def KeyValSession.expunge_mailbox (s : MailboxStore) (selected : SelectedMailbox)
    (uid_set : Option SequenceSet) :
    MailboxStore × Except PymapError SelectedMailbox :=
  if selected.readonly then
    (s, Except.error (PymapError.mailboxReadOnly selected.name))
  else
    match s.get_mailbox selected.name with
    | Except.error e => (s, Except.error e)
    | Except.ok mbx =>
      let uids := uid_set.getD (SequenceSet.all true)
      let expunge_uids := ((mbx.find uids).filter
        (fun p => MsgFlag.Deleted ∈ p.2.permanent_flags)).map (fun p => p.2.uid)
      let mbx1 := expunge_uids.foldl KeyValMailbox.delete mbx
      let mbx2 := { mbx1 with updated := true }
      let s1 := s.put mbx2
      (s1, Except.ok (KeyValSession.load_updates_some s1 selected (some mbx2)))

/-- One iteration of the copy loop: add the source message to the
destination with recency `not dest_selected`, record the new UID as
recent in the destination view when one exists, and collect the
`(sourceUid, destUid)` pair. -/
def copyStep (hasDest : Bool)
    (st : KeyValMailbox × Option SelectedMailbox × List (Nat × Nat))
    (msg : KeyValMessage) :
    KeyValMailbox × Option SelectedMailbox × List (Nat × Nat) :=
  let added := st.1.add msg (!hasDest)
  (added.1,
   st.2.1.map (fun d =>
     { d with session_flags := d.session_flags.add_recent added.2.uid }),
   st.2.2 ++ [(msg.uid, added.2.uid)])

/-- `KeyValSession.copy_messages`: resolve the source mailbox (NotFound
propagates), resolve the destination with `try_create`, reject a
read-only destination, copy every matched message with recency
attributed via `_find_selected`, fire the destination's change signal,
and return the `COPYUID` data plus the refreshed caller view. -/
def KeyValSession.copy_messages (s : MailboxStore) (selected : SelectedMailbox)
    (sequence_set : SequenceSet) (mailbox : String) :
    MailboxStore × Except PymapError (CopyUid × SelectedMailbox) :=
  match s.get_mailbox selected.name with
  | Except.error e => (s, Except.error e)
  | Except.ok mbx =>
    let r0 := s.get_mailbox_try_create mailbox
    let s1 := r0.1
    let dest0 := r0.2
    if dest0.readonly then
      (s1, Except.error (PymapError.mailboxReadOnly mailbox))
    else
      let dsel0 := KeyValSession.find_selected (some selected) dest0
      let found := (mbx.find sequence_set).map (fun p => p.2)
      let r := found.foldl (copyStep dsel0.isSome) (dest0, dsel0, [])
      let callerIsDest : Bool := selected.name = dest0.name
      let selected1 := if callerIsDest then r.2.1.getD selected else selected
      let destF := { r.1 with
        any_selected := if callerIsDest then r.1.any_selected else r.2.1,
        updated := true }
      let s2 := s1.put destF
      let mbxForSync := if selected.name = destF.name then destF else mbx
      (s2, Except.ok (⟨destF.uid_validity, r.2.2⟩,
        KeyValSession.load_updates_some s2 selected1 (some mbxForSync)))

/-- `KeyValSession.update_flags`: reject a read-only view before any
mutation, else intersect the requested flags with the mailbox's
permanent and session vocabularies, apply the flag operation to every
matched message (durably, via `save_flags`) and to the view's session
flags, fire the change signal, and synchronize. -/
def KeyValSession.update_flags (s : MailboxStore) (selected : SelectedMailbox)
    (sequence_set : SequenceSet) (flag_set : List MsgFlag) (mode : FlagOp) :
    MailboxStore × Except PymapError (List Nat × SelectedMailbox) :=
  if selected.readonly then
    (s, Except.error (PymapError.mailboxReadOnly selected.name))
  else
    match s.get_mailbox selected.name with
    | Except.error e => (s, Except.error e)
    | Except.ok mbx =>
      let permanent_flags := flag_set.filter
        (fun f => mbx.permanent_flags_vocab.contains f)
      let session_flags := flag_set.filter
        (fun f => mbx.session_flags_vocab.contains f)
      let r := (mbx.find sequence_set).foldl
        (fun (st : SelectedMailbox × List KeyValMessage) p =>
          ({ st.1 with
               session_flags := st.1.session_flags.update p.2.uid session_flags mode },
           st.2 ++ [{ p.2 with
               permanent_flags := applyFlagOp p.2.permanent_flags permanent_flags mode }]))
        (selected, [])
      let mbx1 := { mbx.save_flags r.2 with updated := true }
      let s1 := s.put mbx1
      (s1, Except.ok (r.2.map (fun m => m.uid),
        KeyValSession.load_updates_some s1 r.1 (some mbx1)))

/-- Concrete source mailbox used to exercise the operations on small
inputs. -/
def sampleSrcMailbox : KeyValMailbox :=
  { KeyValMailbox.new_mailbox "S" 1 with
      messages := [⟨1, [], false⟩], uid_next := 2 }

/-- Concrete registry view for the destination mailbox. -/
def sampleRegistryView : SelectedMailbox := SelectedMailbox.fresh "D" false

/-- Concrete destination mailbox whose registry holds a selected view. -/
def sampleDestMailbox : KeyValMailbox :=
  { KeyValMailbox.new_mailbox "D" 2 with
      any_selected := some sampleRegistryView }

/-- Concrete store holding the source and destination mailboxes. -/
def sampleStore : MailboxStore := ⟨[sampleSrcMailbox, sampleDestMailbox], 3⟩

/-! ### Basic lemmas about the store -/

theorem lookupMailbox_name {l : List KeyValMailbox} {name : String}
    {m : KeyValMailbox} (h : lookupMailbox l name = some m) : m.name = name := by
  induction l with
  | nil => simp [lookupMailbox] at h
  | cons x rest ih =>
    simp only [lookupMailbox] at h
    split at h
    · cases h
      assumption
    · exact ih h

theorem get_mailbox_name {s : MailboxStore} {name : String} {m : KeyValMailbox}
    (h : s.get_mailbox name = Except.ok m) : m.name = name := by
  unfold MailboxStore.get_mailbox at h
  cases hl : lookupMailbox s.mailboxes name with
  | none => rw [hl] at h; cases h
  | some x =>
    rw [hl] at h
    cases h
    exact lookupMailbox_name hl

theorem lookupMailbox_put {l : List KeyValMailbox} {name : String}
    (mbx : KeyValMailbox) (hname : mbx.name = name)
    (hfound : (lookupMailbox l name).isSome) :
    lookupMailbox (putMailbox l mbx) name = some mbx := by
  induction l with
  | nil => simp [lookupMailbox] at hfound
  | cons x rest ih =>
    simp only [putMailbox]
    by_cases hx : x.name = mbx.name
    · rw [if_pos hx]
      simp [lookupMailbox, hname]
    · rw [if_neg hx]
      have hx2 : ¬ x.name = name := by rw [← hname]; exact hx
      simp only [lookupMailbox, if_neg hx2]
      simp only [lookupMailbox, if_neg hx2] at hfound
      exact ih hfound

theorem get_mailbox_put {s : MailboxStore} {name : String} {m0 : KeyValMailbox}
    (mbx : KeyValMailbox) (h : s.get_mailbox name = Except.ok m0)
    (hname : mbx.name = name) :
    (s.put mbx).get_mailbox name = Except.ok mbx := by
  unfold MailboxStore.get_mailbox MailboxStore.put
  unfold MailboxStore.get_mailbox at h
  cases hl : lookupMailbox s.mailboxes name with
  | none => rw [hl] at h; cases h
  | some x =>
    have hfound : (lookupMailbox s.mailboxes name).isSome := by
      rw [hl]; rfl
    rw [lookupMailbox_put mbx hname hfound]

theorem lookupMailbox_append_self {l : List KeyValMailbox} {name : String}
    (x : KeyValMailbox) (hnone : lookupMailbox l name = none)
    (hx : x.name = name) : lookupMailbox (l ++ [x]) name = some x := by
  induction l with
  | nil => simp [lookupMailbox, hx]
  | cons y rest ih =>
    simp only [lookupMailbox] at hnone
    split at hnone
    · cases hnone
    · simp only [List.cons_append, lookupMailbox]
      rw [if_neg (by assumption)]
      exact ih hnone

theorem get_mailbox_try_create_of_ok {s : MailboxStore} {name : String}
    {m : KeyValMailbox} (h : s.get_mailbox name = Except.ok m) :
    s.get_mailbox_try_create name = (s, m) := by
  unfold MailboxStore.get_mailbox at h
  unfold MailboxStore.get_mailbox_try_create
  cases hl : lookupMailbox s.mailboxes name with
  | none => rw [hl] at h; cases h
  | some x => rw [hl] at h; cases h; rfl

theorem get_mailbox_try_create_of_error {s : MailboxStore} {name : String}
    {e : PymapError} (h : s.get_mailbox name = Except.error e) :
    s.get_mailbox_try_create name =
      ({ s with
           mailboxes := s.mailboxes ++ [KeyValMailbox.new_mailbox name s.next_uid_validity],
           next_uid_validity := s.next_uid_validity + 1 },
       KeyValMailbox.new_mailbox name s.next_uid_validity) ∧
    ((s.get_mailbox_try_create name).1).get_mailbox name =
      Except.ok (KeyValMailbox.new_mailbox name s.next_uid_validity) := by
  unfold MailboxStore.get_mailbox at h
  cases hl : lookupMailbox s.mailboxes name with
  | some x => rw [hl] at h; cases h
  | none =>
    constructor
    · unfold MailboxStore.get_mailbox_try_create
      rw [hl]
    · unfold MailboxStore.get_mailbox_try_create
      rw [hl]
      unfold MailboxStore.get_mailbox
      simp only
      rw [lookupMailbox_append_self _ hl rfl]

/-! ### Field-preservation lemmas for view updates -/

theorem add_messages_preserves (v : SelectedMailbox) (p : Nat × List MsgFlag) :
    (v.add_messages p).name = v.name ∧ (v.add_messages p).readonly = v.readonly ∧
    (v.add_messages p).session_flags = v.session_flags ∧
    (v.add_messages p).deleted = v.deleted := by
  unfold SelectedMailbox.add_messages
  split <;> simp

theorem set_uid_validity_preserves (v : SelectedMailbox) (u : Nat) :
    (v.set_uid_validity u).name = v.name ∧
    (v.set_uid_validity u).readonly = v.readonly ∧
    (v.set_uid_validity u).session_flags = v.session_flags ∧
    (v.set_uid_validity u).deleted = v.deleted := by
  unfold SelectedMailbox.set_uid_validity
  split <;> simp

theorem foldl_add_messages_preserves (l : List (Nat × List MsgFlag)) :
    ∀ v : SelectedMailbox,
    (l.foldl SelectedMailbox.add_messages v).name = v.name ∧
    (l.foldl SelectedMailbox.add_messages v).readonly = v.readonly ∧
    (l.foldl SelectedMailbox.add_messages v).session_flags = v.session_flags ∧
    (l.foldl SelectedMailbox.add_messages v).deleted = v.deleted := by
  induction l with
  | nil => intro v; simp
  | cons p rest ih =>
    intro v
    simp only [List.foldl_cons]
    have h1 := add_messages_preserves v p
    have h2 := ih (v.add_messages p)
    exact ⟨h2.1.trans h1.1, (h2.2.1).trans h1.2.1,
      (h2.2.2.1).trans h1.2.2.1, (h2.2.2.2).trans h1.2.2.2⟩

theorem sync_from_preserves (v : SelectedMailbox) (mbx : KeyValMailbox) :
    (v.sync_from mbx).name = v.name ∧ (v.sync_from mbx).readonly = v.readonly ∧
    (v.sync_from mbx).session_flags = v.session_flags ∧
    (v.sync_from mbx).deleted = v.deleted := by
  unfold SelectedMailbox.sync_from
  have h1 := foldl_add_messages_preserves mbx.items (v.set_uid_validity mbx.uid_validity)
  have h2 := set_uid_validity_preserves v mbx.uid_validity
  exact ⟨h1.1.trans h2.1, (h1.2.1).trans h2.2.1,
    (h1.2.2.1).trans h2.2.2.1, (h1.2.2.2).trans h2.2.2.2⟩

theorem set_deleted_preserves (v : SelectedMailbox) :
    v.set_deleted.name = v.name ∧ v.set_deleted.readonly = v.readonly ∧
    v.set_deleted.session_flags = v.session_flags := by
  unfold SelectedMailbox.set_deleted
  simp

theorem load_updates_some_preserves (s : MailboxStore) (sel : SelectedMailbox)
    (mbx? : Option KeyValMailbox) :
    (KeyValSession.load_updates_some s sel mbx?).name = sel.name ∧
    (KeyValSession.load_updates_some s sel mbx?).readonly = sel.readonly ∧
    (KeyValSession.load_updates_some s sel mbx?).session_flags = sel.session_flags := by
  unfold KeyValSession.load_updates_some
  cases mbx? with
  | none =>
    simp only
    cases s.get_mailbox sel.name with
    | error e => exact set_deleted_preserves sel
    | ok mbx =>
      have h := sync_from_preserves sel mbx
      exact ⟨h.1, h.2.1, h.2.2.1⟩
  | some mbx =>
    simp only
    by_cases hn : sel.name = mbx.name
    · rw [if_pos hn]
      have h := sync_from_preserves sel mbx
      exact ⟨h.1, h.2.1, h.2.2.1⟩
    · rw [if_neg hn]
      cases s.get_mailbox sel.name with
      | error e => exact set_deleted_preserves sel
      | ok mbx2 =>
        have h := sync_from_preserves sel mbx2
        exact ⟨h.1, h.2.1, h.2.2.1⟩

/-! ### The deleted marker is terminal for view updates -/

theorem set_deleted_of_deleted {v : SelectedMailbox} (h : v.deleted = true) :
    v.set_deleted = v := by
  unfold SelectedMailbox.set_deleted
  cases v
  simp only at h
  rw [h]

theorem add_messages_of_deleted {v : SelectedMailbox} (p : Nat × List MsgFlag)
    (h : v.deleted = true) : v.add_messages p = v := by
  unfold SelectedMailbox.add_messages
  rw [if_pos h]

theorem set_uid_validity_of_deleted {v : SelectedMailbox} (u : Nat)
    (h : v.deleted = true) : v.set_uid_validity u = v := by
  unfold SelectedMailbox.set_uid_validity
  rw [if_pos h]

theorem foldl_add_messages_of_deleted (l : List (Nat × List MsgFlag))
    {v : SelectedMailbox} (h : v.deleted = true) :
    l.foldl SelectedMailbox.add_messages v = v := by
  induction l with
  | nil => rfl
  | cons p rest ih =>
    simp only [List.foldl_cons]
    rw [add_messages_of_deleted p h]
    exact ih

theorem sync_from_of_deleted {v : SelectedMailbox} (mbx : KeyValMailbox)
    (h : v.deleted = true) : v.sync_from mbx = v := by
  unfold SelectedMailbox.sync_from
  rw [set_uid_validity_of_deleted _ h]
  exact foldl_add_messages_of_deleted _ h

/-! ### Session-flag recency membership -/

theorem mem_add_recent_self (sf : SessionFlags) (u : Nat) :
    u ∈ (sf.add_recent u).recent := by
  unfold SessionFlags.add_recent
  split
  · assumption
  · simp

theorem mem_add_recent_mono (sf : SessionFlags) {u : Nat} (w : Nat)
    (h : u ∈ sf.recent) : u ∈ (sf.add_recent w).recent := by
  unfold SessionFlags.add_recent
  split
  · exact h
  · simp [h]

theorem claimRecentStep_preserves (v : SelectedMailbox) (m : KeyValMessage) :
    (claimRecentStep v m).name = v.name ∧
    (claimRecentStep v m).readonly = v.readonly ∧
    (claimRecentStep v m).deleted = v.deleted := by
  unfold claimRecentStep
  simp

theorem mem_claim_fold_mono (l : List KeyValMessage) :
    ∀ (v : SelectedMailbox) (u : Nat), u ∈ v.session_flags.recent →
    u ∈ (l.foldl claimRecentStep v).session_flags.recent := by
  induction l with
  | nil => intro v u h; simpa using h
  | cons m rest ih =>
    intro v u h
    simp only [List.foldl_cons]
    exact ih (claimRecentStep v m) u (mem_add_recent_mono _ _ h)

theorem mem_claim_fold_of_mem (l : List KeyValMessage) :
    ∀ (v : SelectedMailbox) (m : KeyValMessage), m ∈ l →
    m.uid ∈ (l.foldl claimRecentStep v).session_flags.recent := by
  induction l with
  | nil => intro v m h; cases h
  | cons x rest ih =>
    intro v m h
    simp only [List.foldl_cons]
    cases List.mem_cons.mp h with
    | inl heq =>
      subst heq
      exact mem_claim_fold_mono rest _ _ (mem_add_recent_self _ _)
    | inr hrest => exact ih _ m hrest

theorem claim_fold_preserves (l : List KeyValMessage) :
    ∀ v : SelectedMailbox,
    (l.foldl claimRecentStep v).name = v.name ∧
    (l.foldl claimRecentStep v).readonly = v.readonly ∧
    (l.foldl claimRecentStep v).deleted = v.deleted := by
  induction l with
  | nil => intro v; simp
  | cons m rest ih =>
    intro v
    simp only [List.foldl_cons]
    have h1 := claimRecentStep_preserves v m
    have h2 := ih (claimRecentStep v m)
    exact ⟨h2.1.trans h1.1, (h2.2.1).trans h1.2.1, (h2.2.2).trans h1.2.2⟩

/-! ### Lemmas about message lookup/enumeration and save_flags -/

theorem findByUid_some {msgs : List KeyValMessage} {uid : Nat} {x : KeyValMessage}
    (h : findByUid msgs uid = some x) : x ∈ msgs ∧ x.uid = uid := by
  induction msgs with
  | nil => simp [findByUid] at h
  | cons y rest ih =>
    simp only [findByUid] at h
    split at h
    · cases h
      exact ⟨List.mem_cons_self _ _, by assumption⟩
    · have := ih h
      exact ⟨List.mem_cons_of_mem _ this.1, this.2⟩

theorem findByUid_none {msgs : List KeyValMessage} {uid : Nat}
    (h : findByUid msgs uid = none) : ∀ x ∈ msgs, ¬ x.uid = uid := by
  induction msgs with
  | nil => intro x hx; cases hx
  | cons y rest ih =>
    simp only [findByUid] at h
    split at h
    · cases h
    · intro x hx
      cases List.mem_cons.mp hx with
      | inl heq => subst heq; assumption
      | inr hrest => exact ih h x hrest

theorem findByUid_mem_self {msgs : List KeyValMessage} {x : KeyValMessage}
    (h : x ∈ msgs) : (findByUid msgs x.uid).isSome := by
  induction msgs with
  | nil => cases h
  | cons y rest ih =>
    simp only [findByUid]
    split
    · rfl
    · cases List.mem_cons.mp h with
      | inl heq => subst heq; simp at *
      | inr hrest => exact ih hrest

theorem mem_save_flags {mbx : KeyValMailbox} {msgs : List KeyValMessage}
    {m : KeyValMessage} (h : m ∈ (mbx.save_flags msgs).messages) :
    ∃ m0 ∈ mbx.messages, m = (findByUid msgs m0.uid).getD m0 := by
  unfold KeyValMailbox.save_flags at h
  simp only [List.mem_map] at h
  obtain ⟨m0, hm0, hm⟩ := h
  exact ⟨m0, hm0, hm.symm⟩

theorem mem_enumMessagesFrom {p : Nat × KeyValMessage} :
    ∀ {n : Nat} {l : List KeyValMessage}, p ∈ enumMessagesFrom n l → p.2 ∈ l := by
  intro n l
  induction l generalizing n with
  | nil => intro h; cases h
  | cons m rest ih =>
    intro h
    simp only [enumMessagesFrom] at h
    cases List.mem_cons.mp h with
    | inl heq => subst heq; exact List.mem_cons_self _ _
    | inr hrest => exact List.mem_cons_of_mem _ (ih hrest)

theorem mem_find_snd {mbx : KeyValMailbox} {ss : SequenceSet}
    {p : Nat × KeyValMessage} (h : p ∈ mbx.find ss) : p.2 ∈ mbx.messages := by
  unfold KeyValMailbox.find at h
  exact mem_enumMessagesFrom (List.mem_of_mem_filter h)

/-! ### Read-only rejection helpers (shared) -/

theorem expunge_readonly_rejects (s : MailboxStore) (sel : SelectedMailbox)
    (uid_set : Option SequenceSet) (h : sel.readonly = true) :
    KeyValSession.expunge_mailbox s sel uid_set =
      (s, Except.error (PymapError.mailboxReadOnly sel.name)) := by
  unfold KeyValSession.expunge_mailbox
  rw [if_pos h]

theorem update_flags_readonly_rejects (s : MailboxStore) (sel : SelectedMailbox)
    (ss : SequenceSet) (fs : List MsgFlag) (mode : FlagOp)
    (h : sel.readonly = true) :
    KeyValSession.update_flags s sel ss fs mode =
      (s, Except.error (PymapError.mailboxReadOnly sel.name)) := by
  unfold KeyValSession.update_flags
  rw [if_pos h]

/-! ### Claim theorems -/

/-- C1: `_load_updates` with an absent view returns absent and mutates
nothing; with a present view whose supplied mailbox handle is absent or
differently named, a failed re-resolution by the view's name marks the
view deleted and returns it immediately, with no other field update (in
particular `uid_validity` and the membership cache are untouched). -/
theorem load_updates_absent_or_notfound (s : MailboxStore) (sel : SelectedMailbox)
    (mbx? : Option KeyValMailbox)
    (hmb : ∀ m, mbx? = some m → ¬ sel.name = m.name)
    (hres : s.get_mailbox sel.name =
      Except.error (PymapError.mailboxNotFound sel.name)) :
    KeyValSession.load_updates s none mbx? = none ∧
    KeyValSession.load_updates s (some sel) mbx? =
      some { sel with deleted := true } := by
  constructor
  · rfl
  · show some (KeyValSession.load_updates_some s sel mbx?) = _
    unfold KeyValSession.load_updates_some
    cases mbx? with
    | none => rw [hres]; rfl
    | some m =>
      simp only
      rw [if_neg (hmb m rfl), hres]
      rfl

theorem load_updates_absent_or_notfound_witness :
    KeyValSession.load_updates ⟨[], 0⟩ none none = none ∧
    KeyValSession.load_updates ⟨[], 0⟩ (some (SelectedMailbox.fresh "A" false)) none =
      some { SelectedMailbox.fresh "A" false with deleted := true } :=
  load_updates_absent_or_notfound ⟨[], 0⟩ (SelectedMailbox.fresh "A" false) none
    (fun m hm => by cases hm) rfl

/-- C4: on a read-only view, Expunge and Update-Flags raise the
ReadOnly error with the store unchanged — no message deleted, no flag
changed, no change signal fired, and no refreshed view produced. -/
theorem readonly_rejection (s : MailboxStore) (sel : SelectedMailbox)
    (uid_set : Option SequenceSet) (ss : SequenceSet) (fs : List MsgFlag)
    (mode : FlagOp) (h : sel.readonly = true) :
    KeyValSession.expunge_mailbox s sel uid_set =
      (s, Except.error (PymapError.mailboxReadOnly sel.name)) ∧
    KeyValSession.update_flags s sel ss fs mode =
      (s, Except.error (PymapError.mailboxReadOnly sel.name)) :=
  ⟨expunge_readonly_rejects s sel uid_set h,
   update_flags_readonly_rejects s sel ss fs mode h⟩

theorem readonly_rejection_witness :
    KeyValSession.expunge_mailbox ⟨[], 0⟩ (SelectedMailbox.fresh "A" true) none =
      (⟨[], 0⟩, Except.error (PymapError.mailboxReadOnly "A")) ∧
    KeyValSession.update_flags ⟨[], 0⟩ (SelectedMailbox.fresh "A" true)
        (SequenceSet.all false) [MsgFlag.Seen] FlagOp.add =
      (⟨[], 0⟩, Except.error (PymapError.mailboxReadOnly "A")) :=
  readonly_rejection ⟨[], 0⟩ (SelectedMailbox.fresh "A" true) none
    (SequenceSet.all false) [MsgFlag.Seen] FlagOp.add rfl

/-- C5: the deleted marker is terminal — synchronizing a view on which
`deleted` is set performs no field update at all and returns the view
unchanged, whatever the store currently holds (in particular even when
a mailbox with the same name exists again). -/
theorem deleted_view_terminal (s : MailboxStore) (sel : SelectedMailbox)
    (mbx? : Option KeyValMailbox) (h : sel.deleted = true) :
    KeyValSession.load_updates_some s sel mbx? = sel := by
  unfold KeyValSession.load_updates_some
  cases mbx? with
  | none =>
    cases s.get_mailbox sel.name with
    | error e => exact set_deleted_of_deleted h
    | ok mbx2 => exact sync_from_of_deleted mbx2 h
  | some mbx =>
    simp only
    by_cases hn : sel.name = mbx.name
    · rw [if_pos hn]
      exact sync_from_of_deleted mbx h
    · rw [if_neg hn]
      cases s.get_mailbox sel.name with
      | error e => exact set_deleted_of_deleted h
      | ok mbx2 => exact sync_from_of_deleted mbx2 h

theorem deleted_view_terminal_witness :
    KeyValSession.load_updates_some
      ⟨[KeyValMailbox.new_mailbox "A" 7], 1⟩
      { SelectedMailbox.fresh "A" false with deleted := true }
      (some (KeyValMailbox.new_mailbox "A" 7)) =
    { SelectedMailbox.fresh "A" false with deleted := true } :=
  deleted_view_terminal ⟨[KeyValMailbox.new_mailbox "A" 7], 1⟩
    { SelectedMailbox.fresh "A" false with deleted := true }
    (some (KeyValMailbox.new_mailbox "A" 7)) rfl

/-- C8: the change-wait operation returns normally in every case — when
the supplied wake signal fires, when the mailbox's change signal fires,
and when the 10-time-unit ceiling expires; the timeout raised by the
ceiling is swallowed internally, never surfaced. -/
theorem wait_for_updates_total (outcome : WaitOutcome) :
    KeyValSession.wait_for_updates outcome = Except.ok () := by
  cases outcome <;> rfl

/-- C6 counterexample: on a view whose mailbox no longer exists, Check
and Fetch propagate the NotFound error to the caller and do not mark
the view deleted — directly contradicting the claim as stated. -/
theorem check_fetch_notfound_counterexample :
    KeyValSession.check_mailbox ⟨[], 0⟩ (SelectedMailbox.fresh "gone" false)
        none false =
      (⟨[], 0⟩, Except.error (PymapError.mailboxNotFound "gone")) ∧
    KeyValSession.fetch_messages ⟨[], 0⟩ (SelectedMailbox.fresh "gone" false)
        (SequenceSet.all false) [] =
      (⟨[], 0⟩, Except.error (PymapError.mailboxNotFound "gone")) ∧
    (SelectedMailbox.fresh "gone" false).deleted = false := by
  refine ⟨rfl, rfl, rfl⟩

/-- C6 (amended): Check and Fetch resolve the mailbox before any sync,
so a NotFound for a vanished mailbox propagates unchanged to the
caller with the store unmutated; the mark-view-deleted handling applies
only to NotFound raised during `_load_updates` re-resolution, which
Check and Fetch never reach. -/
theorem check_fetch_notfound_propagates (s : MailboxStore)
    (sel : SelectedMailbox) (w : Option WaitOutcome) (hk : Bool)
    (ss : SequenceSet) (attrs : List FetchAttribute) (e : PymapError)
    (h : s.get_mailbox sel.name = Except.error e) :
    KeyValSession.check_mailbox s sel w hk = (s, Except.error e) ∧
    KeyValSession.fetch_messages s sel ss attrs = (s, Except.error e) := by
  constructor
  · unfold KeyValSession.check_mailbox
    rw [h]
  · unfold KeyValSession.fetch_messages
    rw [h]

theorem check_fetch_notfound_propagates_witness :
    KeyValSession.check_mailbox ⟨[], 0⟩ (SelectedMailbox.fresh "B" false)
        (some WaitOutcome.timed_out) true =
      (⟨[], 0⟩, Except.error (PymapError.mailboxNotFound "B")) ∧
    KeyValSession.fetch_messages ⟨[], 0⟩ (SelectedMailbox.fresh "B" false)
        (SequenceSet.all true) [⟨true⟩] =
      (⟨[], 0⟩, Except.error (PymapError.mailboxNotFound "B")) :=
  check_fetch_notfound_propagates ⟨[], 0⟩ (SelectedMailbox.fresh "B" false)
    (some WaitOutcome.timed_out) true (SequenceSet.all true) [⟨true⟩]
    (PymapError.mailboxNotFound "B") rfl

/-- C10: the view created by Select is read-only exactly when the
caller requested read-only or the mailbox itself is read-only; a
read-only view then has Expunge and Update-Flags rejected, and a
writable view arises only when both are false. -/
theorem select_readonly_disjunction (s : MailboxStore) (name : String)
    (ro : Bool) (mbx : KeyValMailbox) (h : s.get_mailbox name = Except.ok mbx) :
    ∃ s1 snap view,
      KeyValSession.select_mailbox s name ro = (s1, Except.ok (snap, view)) ∧
      view.readonly = (ro || mbx.readonly) ∧
      (∀ uid_set, view.readonly = true →
        KeyValSession.expunge_mailbox s1 view uid_set =
          (s1, Except.error (PymapError.mailboxReadOnly view.name))) ∧
      (∀ ss fs mode, view.readonly = true →
        KeyValSession.update_flags s1 view ss fs mode =
          (s1, Except.error (PymapError.mailboxReadOnly view.name))) := by
  unfold KeyValSession.select_mailbox
  rw [h]
  simp only
  cases hb : (ro || mbx.readonly) with
  | true =>
    rw [if_pos (show (SelectedMailbox.fresh name true).readonly = true from rfl)]
    refine ⟨s, mbx.snapshot,
      KeyValSession.load_updates_some s (SelectedMailbox.fresh name true) (some mbx),
      rfl, ?_, ?_, ?_⟩
    · exact (load_updates_some_preserves s _ (some mbx)).2.1
    · intro uid_set hvro
      exact expunge_readonly_rejects s _ uid_set hvro
    · intro ss fs mode hvro
      exact update_flags_readonly_rejects s _ ss fs mode hvro
  | false =>
    rw [if_neg (show ¬ (SelectedMailbox.fresh name false).readonly = true from
      Bool.false_ne_true)]
    refine ⟨_, _, _, rfl, ?_, ?_, ?_⟩
    · have h1 := load_updates_some_preserves
        (s.put (mbx.save_flags ((mbx.messages.filter (fun m => m.recent)).map
          (fun m => { m with recent := false }))))
        ((mbx.messages.filter (fun m => m.recent)).foldl claimRecentStep
          (SelectedMailbox.fresh name false))
        (some (mbx.save_flags ((mbx.messages.filter (fun m => m.recent)).map
          (fun m => { m with recent := false }))))
      have h2 := claim_fold_preserves (mbx.messages.filter (fun m => m.recent))
        (SelectedMailbox.fresh name false)
      exact h1.2.1.trans h2.2.1
    · intro uid_set hvro
      have h1 := load_updates_some_preserves
        (s.put (mbx.save_flags ((mbx.messages.filter (fun m => m.recent)).map
          (fun m => { m with recent := false }))))
        ((mbx.messages.filter (fun m => m.recent)).foldl claimRecentStep
          (SelectedMailbox.fresh name false))
        (some (mbx.save_flags ((mbx.messages.filter (fun m => m.recent)).map
          (fun m => { m with recent := false }))))
      have h2 := claim_fold_preserves (mbx.messages.filter (fun m => m.recent))
        (SelectedMailbox.fresh name false)
      rw [h1.2.1.trans h2.2.1] at hvro
      exact (Bool.false_ne_true hvro).elim
    · intro ss fs mode hvro
      have h1 := load_updates_some_preserves
        (s.put (mbx.save_flags ((mbx.messages.filter (fun m => m.recent)).map
          (fun m => { m with recent := false }))))
        ((mbx.messages.filter (fun m => m.recent)).foldl claimRecentStep
          (SelectedMailbox.fresh name false))
        (some (mbx.save_flags ((mbx.messages.filter (fun m => m.recent)).map
          (fun m => { m with recent := false }))))
      have h2 := claim_fold_preserves (mbx.messages.filter (fun m => m.recent))
        (SelectedMailbox.fresh name false)
      rw [h1.2.1.trans h2.2.1] at hvro
      exact (Bool.false_ne_true hvro).elim

theorem select_readonly_disjunction_witness :
    ∃ s1 snap view,
      KeyValSession.select_mailbox
        ⟨[{ KeyValMailbox.new_mailbox "A" 1 with readonly := true }], 2⟩ "A" false =
        (s1, Except.ok (snap, view)) ∧
      view.readonly = (false || true) ∧
      (∀ uid_set, view.readonly = true →
        KeyValSession.expunge_mailbox s1 view uid_set =
          (s1, Except.error (PymapError.mailboxReadOnly view.name))) ∧
      (∀ ss fs mode, view.readonly = true →
        KeyValSession.update_flags s1 view ss fs mode =
          (s1, Except.error (PymapError.mailboxReadOnly view.name))) :=
  select_readonly_disjunction
    ⟨[{ KeyValMailbox.new_mailbox "A" 1 with readonly := true }], 2⟩ "A" false
    { KeyValMailbox.new_mailbox "A" 1 with readonly := true } rfl

/-- After durably saving the cleared copies of all recent messages, no
message of the mailbox is still marked recent. -/
theorem save_cleared_recent_false (mbx : KeyValMailbox) :
    ∀ m ∈ (mbx.save_flags ((mbx.messages.filter (fun m => m.recent)).map
      (fun m => { m with recent := false }))).messages, m.recent = false := by
  intro m hm
  obtain ⟨m0, hm0, heq⟩ := mem_save_flags hm
  cases hf : findByUid ((mbx.messages.filter (fun m => m.recent)).map
      (fun m => { m with recent := false })) m0.uid with
  | some x =>
    rw [hf, Option.getD_some] at heq
    have hx := (findByUid_some hf).1
    simp only [List.mem_map] at hx
    obtain ⟨y, _, hyx⟩ := hx
    rw [heq, ← hyx]
  | none =>
    rw [hf, Option.getD_none] at heq
    have hnone := findByUid_none hf
    cases hr : m0.recent with
    | false => rw [heq]; exact hr
    | true =>
      exfalso
      have hmem : ({ m0 with recent := false } : KeyValMessage) ∈
          (mbx.messages.filter (fun m => m.recent)).map
            (fun m => { m with recent := false }) :=
        List.mem_map_of_mem _ (List.mem_filter.mpr ⟨hm0, hr⟩)
      exact hnone _ hmem rfl

/-- C2: a read-write Select clears the recent marker on every message
that was recent, records each such UID as recent in the new view's
session flags, persists the cleared flags durably in the store, and
afterwards no message's recency is held both on the message and in any
view's session flags. -/
theorem select_writable_claims_recency (s : MailboxStore) (name : String)
    (ro : Bool) (mbx : KeyValMailbox) (h : s.get_mailbox name = Except.ok mbx)
    (hro : (ro || mbx.readonly) = false) :
    ∃ s1 snap view,
      KeyValSession.select_mailbox s name ro = (s1, Except.ok (snap, view)) ∧
      view.readonly = false ∧
      (∀ m ∈ mbx.messages, m.recent = true →
        m.uid ∈ view.session_flags.recent) ∧
      (∃ mbx1, s1.get_mailbox name = Except.ok mbx1 ∧
        (∀ m ∈ mbx1.messages, m.recent = false) ∧
        (∀ m ∈ mbx1.messages,
          ¬(m.recent = true ∧ m.uid ∈ view.session_flags.recent) ∧
          (∀ v2, mbx1.any_selected = some v2 →
            ¬(m.recent = true ∧ m.uid ∈ v2.session_flags.recent)))) := by
  unfold KeyValSession.select_mailbox
  rw [h]
  simp only
  rw [hro]
  rw [if_neg (show ¬ (SelectedMailbox.fresh name false).readonly = true from
    Bool.false_ne_true)]
  have h1 := load_updates_some_preserves
    (s.put (mbx.save_flags ((mbx.messages.filter (fun m => m.recent)).map
      (fun m => { m with recent := false }))))
    ((mbx.messages.filter (fun m => m.recent)).foldl claimRecentStep
      (SelectedMailbox.fresh name false))
    (some (mbx.save_flags ((mbx.messages.filter (fun m => m.recent)).map
      (fun m => { m with recent := false }))))
  have h2 := claim_fold_preserves (mbx.messages.filter (fun m => m.recent))
    (SelectedMailbox.fresh name false)
  refine ⟨_, _, _, rfl, h1.2.1.trans h2.2.1, ?_, ?_⟩
  · intro m hm hr
    rw [h1.2.2]
    exact mem_claim_fold_of_mem _ _ m (List.mem_filter.mpr ⟨hm, hr⟩)
  · refine ⟨mbx.save_flags ((mbx.messages.filter (fun m => m.recent)).map
      (fun m => { m with recent := false })), ?_, save_cleared_recent_false mbx, ?_⟩
    · have hname : mbx.name = name := get_mailbox_name h
      exact get_mailbox_put _ h hname
    · intro m hm
      have hrf := save_cleared_recent_false mbx m hm
      constructor
      · intro hc
        rw [hrf] at hc
        exact Bool.false_ne_true hc.1
      · intro v2 _ hc
        rw [hrf] at hc
        exact Bool.false_ne_true hc.1

theorem select_writable_claims_recency_witness :
    ∃ s1 snap view,
      KeyValSession.select_mailbox
        ⟨[{ KeyValMailbox.new_mailbox "A" 1 with
             messages := [⟨5, [], true⟩], uid_next := 6 }], 2⟩ "A" false =
        (s1, Except.ok (snap, view)) ∧
      view.readonly = false ∧
      (∀ m ∈ ({ KeyValMailbox.new_mailbox "A" 1 with
          messages := [⟨5, [], true⟩], uid_next := 6 } : KeyValMailbox).messages,
        m.recent = true → m.uid ∈ view.session_flags.recent) ∧
      (∃ mbx1, s1.get_mailbox "A" = Except.ok mbx1 ∧
        (∀ m ∈ mbx1.messages, m.recent = false) ∧
        (∀ m ∈ mbx1.messages,
          ¬(m.recent = true ∧ m.uid ∈ view.session_flags.recent) ∧
          (∀ v2, mbx1.any_selected = some v2 →
            ¬(m.recent = true ∧ m.uid ∈ v2.session_flags.recent)))) :=
  select_writable_claims_recency
    ⟨[{ KeyValMailbox.new_mailbox "A" 1 with
         messages := [⟨5, [], true⟩], uid_next := 6 }], 2⟩ "A" false
    { KeyValMailbox.new_mailbox "A" 1 with
       messages := [⟨5, [], true⟩], uid_next := 6 } rfl rfl

theorem mem_addFlag_self (fs : List MsgFlag) (f : MsgFlag) : f ∈ addFlag fs f := by
  unfold addFlag
  split
  · assumption
  · simp

/-- C7: when the view is writable and some requested attribute implies
mark-seen, Fetch adds `Seen` to every matched message and persists the
change durably (each matched UID carries `Seen` in the stored mailbox)
before returning; when the view is read-only or no attribute implies
mark-seen, the store is untouched and the returned messages are the
stored ones unmodified. -/
theorem fetch_mark_seen (s : MailboxStore) (sel : SelectedMailbox)
    (ss : SequenceSet) (attrs : List FetchAttribute) (mbx : KeyValMailbox)
    (h : s.get_mailbox sel.name = Except.ok mbx) :
    ((sel.readonly = false ∧ attrs.any (fun a => a.set_seen) = true) →
      ∃ s1 ret view,
        KeyValSession.fetch_messages s sel ss attrs = (s1, Except.ok (ret, view)) ∧
        (∀ p ∈ ret, MsgFlag.Seen ∈ p.2.permanent_flags) ∧
        (∃ mbx1, s1.get_mailbox sel.name = Except.ok mbx1 ∧
          ∀ p ∈ ret, ∃ m ∈ mbx1.messages,
            m.uid = p.2.uid ∧ MsgFlag.Seen ∈ m.permanent_flags)) ∧
    ((sel.readonly = true ∨ attrs.any (fun a => a.set_seen) = false) →
      ∃ ret view,
        KeyValSession.fetch_messages s sel ss attrs = (s, Except.ok (ret, view)) ∧
        ∀ p ∈ ret, p.2 ∈ mbx.messages) := by
  constructor
  · intro hpos
    unfold KeyValSession.fetch_messages
    rw [h]
    simp only
    have hcond : (!sel.readonly && attrs.any (fun a => a.set_seen)) = true := by
      rw [hpos.1, hpos.2]
      rfl
    rw [if_pos hcond]
    have hsaved : ∀ x ∈ ((mbx.find ss).map (fun p =>
          (p.1, { p.2 with
            permanent_flags := addFlag p.2.permanent_flags MsgFlag.Seen }))).map
            (fun p => p.2),
        MsgFlag.Seen ∈ x.permanent_flags := by
      intro x hx
      simp only [List.mem_map] at hx
      obtain ⟨a, ⟨q, hq, rfl⟩, rfl⟩ := hx
      exact mem_addFlag_self _ _
    refine ⟨_, _, _, rfl, ?_, ?_⟩
    · intro p hp
      simp only [List.mem_map] at hp
      obtain ⟨q, _, rfl⟩ := hp
      exact mem_addFlag_self _ _
    · refine ⟨mbx.save_flags (((mbx.find ss).map (fun p =>
          (p.1, { p.2 with
            permanent_flags := addFlag p.2.permanent_flags MsgFlag.Seen }))).map
            (fun p => p.2)), ?_, ?_⟩
      · have hname : mbx.name = sel.name := get_mailbox_name h
        exact get_mailbox_put _ h hname
      · intro p hp
        simp only [List.mem_map] at hp
        obtain ⟨q, hq, rfl⟩ := hp
        have hm0 : q.2 ∈ mbx.messages := mem_find_snd hq
        have hsome0 := findByUid_mem_self (List.mem_map_of_mem (fun p => p.2)
          (List.mem_map_of_mem (fun p => (p.1, { p.2 with
            permanent_flags := addFlag p.2.permanent_flags MsgFlag.Seen })) hq))
        have hsome : (findByUid (((mbx.find ss).map (fun p =>
            (p.1, { p.2 with
              permanent_flags := addFlag p.2.permanent_flags MsgFlag.Seen }))).map
              (fun p => p.2)) q.2.uid).isSome := hsome0
        have himg : (findByUid (((mbx.find ss).map (fun p =>
            (p.1, { p.2 with
              permanent_flags := addFlag p.2.permanent_flags MsgFlag.Seen }))).map
              (fun p => p.2)) q.2.uid).getD q.2 ∈
            (mbx.save_flags (((mbx.find ss).map (fun p =>
              (p.1, { p.2 with
                permanent_flags := addFlag p.2.permanent_flags MsgFlag.Seen }))).map
                (fun p => p.2))).messages :=
          List.mem_map_of_mem _ hm0
        cases hfb : findByUid (((mbx.find ss).map (fun p =>
            (p.1, { p.2 with
              permanent_flags := addFlag p.2.permanent_flags MsgFlag.Seen }))).map
              (fun p => p.2)) q.2.uid with
        | none =>
          rw [hfb] at hsome
          cases hsome
        | some x =>
          rw [hfb, Option.getD_some] at himg
          exact ⟨x, himg, (findByUid_some hfb).2,
            hsaved x (findByUid_some hfb).1⟩
  · intro hneg
    unfold KeyValSession.fetch_messages
    rw [h]
    simp only
    have hcond : (!sel.readonly && attrs.any (fun a => a.set_seen)) = false := by
      cases hneg with
      | inl h1 => rw [h1]; rfl
      | inr h2 => rw [h2]; simp
    rw [if_neg (show ¬ (!sel.readonly && attrs.any (fun a => a.set_seen)) = true by
      rw [hcond]; exact Bool.false_ne_true)]
    exact ⟨_, _, rfl, fun p hp => mem_find_snd hp⟩

theorem fetch_mark_seen_witness :
    ((SelectedMailbox.fresh "A" false).readonly = false ∧
      [(⟨true⟩ : FetchAttribute)].any (fun a => a.set_seen) = true) ∧
    (∃ s1 ret view,
      KeyValSession.fetch_messages
        ⟨[{ KeyValMailbox.new_mailbox "A" 1 with
             messages := [⟨3, [], false⟩], uid_next := 4 }], 2⟩
        (SelectedMailbox.fresh "A" false) (SequenceSet.all false)
        [(⟨true⟩ : FetchAttribute)] = (s1, Except.ok (ret, view)) ∧
      (∀ p ∈ ret, MsgFlag.Seen ∈ p.2.permanent_flags) ∧
      (∃ mbx1, s1.get_mailbox "A" = Except.ok mbx1 ∧
        ∀ p ∈ ret, ∃ m ∈ mbx1.messages,
          m.uid = p.2.uid ∧ MsgFlag.Seen ∈ m.permanent_flags)) :=
  ⟨⟨rfl, rfl⟩,
    (fetch_mark_seen
      ⟨[{ KeyValMailbox.new_mailbox "A" 1 with
           messages := [⟨3, [], false⟩], uid_next := 4 }], 2⟩
      (SelectedMailbox.fresh "A" false) (SequenceSet.all false)
      [(⟨true⟩ : FetchAttribute)]
      { KeyValMailbox.new_mailbox "A" 1 with
         messages := [⟨3, [], false⟩], uid_next := 4 } rfl).1 ⟨rfl, rfl⟩⟩

/-! ### Lemmas about the append/copy loops -/

theorem appendStep_fst_name (hasDest : Bool)
    (st : KeyValMailbox × Option SelectedMailbox × List Nat)
    (am : AppendMessage) : (appendStep hasDest st am).1.name = st.1.name := rfl

theorem appendStep_mem (hasDest : Bool)
    (st : KeyValMailbox × Option SelectedMailbox × List Nat)
    (am : AppendMessage) :
    ∀ m ∈ (appendStep hasDest st am).1.messages,
      m ∈ st.1.messages ∨ m.recent = !hasDest := by
  intro m hm
  cases List.mem_append.mp hm with
  | inl hl => exact Or.inl hl
  | inr hr =>
    cases hr with
    | head => exact Or.inr rfl
    | tail _ hx => cases hx

theorem appendStep_snd_dsel (hasDest : Bool)
    (st : KeyValMailbox × Option SelectedMailbox × List Nat)
    (am : AppendMessage) :
    (appendStep hasDest st am).2.1 = st.2.1.map (fun d =>
      { d with session_flags := d.session_flags.add_recent st.1.uid_next }) := rfl

theorem appendStep_snd_uids (hasDest : Bool)
    (st : KeyValMailbox × Option SelectedMailbox × List Nat)
    (am : AppendMessage) :
    (appendStep hasDest st am).2.2 = st.2.2 ++ [st.1.uid_next] := rfl

theorem appendStep_fold_mailbox (hasDest : Bool) (ams : List AppendMessage) :
    ∀ st : KeyValMailbox × Option SelectedMailbox × List Nat,
    (ams.foldl (appendStep hasDest) st).1.name = st.1.name ∧
    (∀ m ∈ (ams.foldl (appendStep hasDest) st).1.messages,
      m ∈ st.1.messages ∨ m.recent = !hasDest) := by
  induction ams with
  | nil => exact fun st => ⟨rfl, fun m hm => Or.inl hm⟩
  | cons am rest ih =>
    intro st
    simp only [List.foldl_cons]
    obtain ⟨hname, hmsgs⟩ := ih (appendStep hasDest st am)
    refine ⟨hname.trans (appendStep_fst_name hasDest st am), ?_⟩
    intro m hm
    cases hmsgs m hm with
    | inl hmem => exact appendStep_mem hasDest st am m hmem
    | inr hrec => exact Or.inr hrec

theorem appendStep_fold_none (hasDest : Bool) (ams : List AppendMessage) :
    ∀ st : KeyValMailbox × Option SelectedMailbox × List Nat,
    st.2.1 = none → (ams.foldl (appendStep hasDest) st).2.1 = none := by
  induction ams with
  | nil => exact fun st h => h
  | cons am rest ih =>
    intro st h
    simp only [List.foldl_cons]
    refine ih (appendStep hasDest st am) ?_
    rw [appendStep_snd_dsel, h]
    rfl

theorem appendStep_fold_dsel (hasDest : Bool) (ams : List AppendMessage) :
    ∀ (st : KeyValMailbox × Option SelectedMailbox × List Nat)
      (d0 : SelectedMailbox), st.2.1 = some d0 →
    ∃ d : SelectedMailbox,
      (ams.foldl (appendStep hasDest) st).2.1 = some d ∧
      (∀ u, u ∈ d0.session_flags.recent → u ∈ d.session_flags.recent) ∧
      (∀ u ∈ (ams.foldl (appendStep hasDest) st).2.2,
        u ∈ st.2.2 ∨ u ∈ d.session_flags.recent) ∧
      d.name = d0.name ∧ d.readonly = d0.readonly := by
  induction ams with
  | nil =>
    exact fun st d0 h =>
      ⟨d0, h, fun u hu => hu, fun u hu => Or.inl hu, rfl, rfl⟩
  | cons am rest ih =>
    intro st d0 h
    simp only [List.foldl_cons]
    have hstep : (appendStep hasDest st am).2.1 =
        some { d0 with
          session_flags := d0.session_flags.add_recent st.1.uid_next } := by
      rw [appendStep_snd_dsel, h]
      rfl
    obtain ⟨d, hd, hmono, huids, hname, hro⟩ :=
      ih (appendStep hasDest st am) _ hstep
    refine ⟨d, hd, ?_, ?_, hname, hro⟩
    · intro u hu
      exact hmono u (mem_add_recent_mono _ _ hu)
    · intro u hu
      cases huids u hu with
      | inl hl =>
        rw [appendStep_snd_uids] at hl
        cases List.mem_append.mp hl with
        | inl hll => exact Or.inl hll
        | inr hlr =>
          cases hlr with
          | head => exact Or.inr (hmono _ (mem_add_recent_self _ _))
          | tail _ hx => cases hx
      | inr hr => exact Or.inr hr

theorem copyStep_fst_name (hasDest : Bool)
    (st : KeyValMailbox × Option SelectedMailbox × List (Nat × Nat))
    (msg : KeyValMessage) : (copyStep hasDest st msg).1.name = st.1.name := rfl

theorem copyStep_mem (hasDest : Bool)
    (st : KeyValMailbox × Option SelectedMailbox × List (Nat × Nat))
    (msg : KeyValMessage) :
    ∀ m ∈ (copyStep hasDest st msg).1.messages,
      m ∈ st.1.messages ∨ m.recent = !hasDest := by
  intro m hm
  cases List.mem_append.mp hm with
  | inl hl => exact Or.inl hl
  | inr hr =>
    cases hr with
    | head => exact Or.inr rfl
    | tail _ hx => cases hx

theorem copyStep_snd_dsel (hasDest : Bool)
    (st : KeyValMailbox × Option SelectedMailbox × List (Nat × Nat))
    (msg : KeyValMessage) :
    (copyStep hasDest st msg).2.1 = st.2.1.map (fun d =>
      { d with session_flags := d.session_flags.add_recent st.1.uid_next }) := rfl

theorem copyStep_snd_prs (hasDest : Bool)
    (st : KeyValMailbox × Option SelectedMailbox × List (Nat × Nat))
    (msg : KeyValMessage) :
    (copyStep hasDest st msg).2.2 = st.2.2 ++ [(msg.uid, st.1.uid_next)] := rfl

theorem copyStep_fold_mailbox (hasDest : Bool) (msgs : List KeyValMessage) :
    ∀ st : KeyValMailbox × Option SelectedMailbox × List (Nat × Nat),
    (msgs.foldl (copyStep hasDest) st).1.name = st.1.name ∧
    (∀ m ∈ (msgs.foldl (copyStep hasDest) st).1.messages,
      m ∈ st.1.messages ∨ m.recent = !hasDest) := by
  induction msgs with
  | nil => exact fun st => ⟨rfl, fun m hm => Or.inl hm⟩
  | cons msg rest ih =>
    intro st
    simp only [List.foldl_cons]
    obtain ⟨hname, hmsgs⟩ := ih (copyStep hasDest st msg)
    refine ⟨hname.trans (copyStep_fst_name hasDest st msg), ?_⟩
    intro m hm
    cases hmsgs m hm with
    | inl hmem => exact copyStep_mem hasDest st msg m hmem
    | inr hrec => exact Or.inr hrec

theorem copyStep_fold_none (hasDest : Bool) (msgs : List KeyValMessage) :
    ∀ st : KeyValMailbox × Option SelectedMailbox × List (Nat × Nat),
    st.2.1 = none → (msgs.foldl (copyStep hasDest) st).2.1 = none := by
  induction msgs with
  | nil => exact fun st h => h
  | cons msg rest ih =>
    intro st h
    simp only [List.foldl_cons]
    refine ih (copyStep hasDest st msg) ?_
    rw [copyStep_snd_dsel, h]
    rfl

theorem copyStep_fold_dsel (hasDest : Bool) (msgs : List KeyValMessage) :
    ∀ (st : KeyValMailbox × Option SelectedMailbox × List (Nat × Nat))
      (d0 : SelectedMailbox), st.2.1 = some d0 →
    ∃ d : SelectedMailbox,
      (msgs.foldl (copyStep hasDest) st).2.1 = some d ∧
      (∀ u, u ∈ d0.session_flags.recent → u ∈ d.session_flags.recent) ∧
      (∀ pr ∈ (msgs.foldl (copyStep hasDest) st).2.2,
        pr ∈ st.2.2 ∨ pr.2 ∈ d.session_flags.recent) ∧
      d.name = d0.name ∧ d.readonly = d0.readonly := by
  induction msgs with
  | nil =>
    exact fun st d0 h =>
      ⟨d0, h, fun u hu => hu, fun pr hpr => Or.inl hpr, rfl, rfl⟩
  | cons msg rest ih =>
    intro st d0 h
    simp only [List.foldl_cons]
    have hstep : (copyStep hasDest st msg).2.1 =
        some { d0 with
          session_flags := d0.session_flags.add_recent st.1.uid_next } := by
      rw [copyStep_snd_dsel, h]
      rfl
    obtain ⟨d, hd, hmono, hprs, hname, hro⟩ :=
      ih (copyStep hasDest st msg) _ hstep
    refine ⟨d, hd, ?_, ?_, hname, hro⟩
    · intro u hu
      exact hmono u (mem_add_recent_mono _ _ hu)
    · intro pr hpr
      cases hprs pr hpr with
      | inl hl =>
        rw [copyStep_snd_prs] at hl
        cases List.mem_append.mp hl with
        | inl hll => exact Or.inl hll
        | inr hlr =>
          cases hlr with
          | head => exact Or.inr (hmono _ (mem_add_recent_self _ _))
          | tail _ hx => cases hx
      | inr hr => exact Or.inr hr

/-- C9: when the destination mailbox name does not exist, Append and
Copy create it on demand via try-create resolution and complete
normally instead of raising NotFound; afterwards the destination
exists in the store. -/
theorem append_copy_create_destination (s : MailboxStore)
    (name destName : String) (ams : List AppendMessage)
    (sel? : Option SelectedMailbox) (selc : SelectedMailbox)
    (ss : SequenceSet) (srcMbx : KeyValMailbox)
    (h1 : s.get_mailbox name = Except.error (PymapError.mailboxNotFound name))
    (h2 : s.get_mailbox selc.name = Except.ok srcMbx)
    (h3 : s.get_mailbox destName =
      Except.error (PymapError.mailboxNotFound destName)) :
    (∃ s1 res, KeyValSession.append_messages s name ams sel? =
        (s1, Except.ok res) ∧
      ∃ m, s1.get_mailbox name = Except.ok m) ∧
    (∃ s2 res2, KeyValSession.copy_messages s selc ss destName =
        (s2, Except.ok res2) ∧
      ∃ m2, s2.get_mailbox destName = Except.ok m2) := by
  constructor
  · obtain ⟨heq, hget⟩ := get_mailbox_try_create_of_error h1
    rw [heq] at hget
    unfold KeyValSession.append_messages
    rw [heq]
    simp only
    rw [if_neg (show ¬ (KeyValMailbox.new_mailbox name
        s.next_uid_validity).readonly = true from Bool.false_ne_true)]
    refine ⟨_, _, rfl, _, get_mailbox_put _ hget ?_⟩
    exact (appendStep_fold_mailbox _ ams _).1
  · obtain ⟨heq, hget⟩ := get_mailbox_try_create_of_error h3
    rw [heq] at hget
    unfold KeyValSession.copy_messages
    rw [h2]
    simp only
    rw [heq]
    simp only
    rw [if_neg (show ¬ (KeyValMailbox.new_mailbox destName
        s.next_uid_validity).readonly = true from Bool.false_ne_true)]
    refine ⟨_, _, rfl, _, get_mailbox_put _ hget ?_⟩
    exact (copyStep_fold_mailbox _ _ _).1

theorem append_copy_create_destination_witness :
    (∃ s1 res, KeyValSession.append_messages
        ⟨[KeyValMailbox.new_mailbox "S" 1], 2⟩ "NEW" [⟨[]⟩] none =
        (s1, Except.ok res) ∧
      ∃ m, s1.get_mailbox "NEW" = Except.ok m) ∧
    (∃ s2 res2, KeyValSession.copy_messages
        ⟨[KeyValMailbox.new_mailbox "S" 1], 2⟩ (SelectedMailbox.fresh "S" false)
        (SequenceSet.all true) "D" = (s2, Except.ok res2) ∧
      ∃ m2, s2.get_mailbox "D" = Except.ok m2) :=
  append_copy_create_destination ⟨[KeyValMailbox.new_mailbox "S" 1], 2⟩
    "NEW" "D" [⟨[]⟩] none (SelectedMailbox.fresh "S" false)
    (SequenceSet.all true) (KeyValMailbox.new_mailbox "S" 1) rfl rfl rfl

theorem get_mailbox_try_create_get (s : MailboxStore) (name : String) :
    ((s.get_mailbox_try_create name).1).get_mailbox name =
      Except.ok (s.get_mailbox_try_create name).2 := by
  unfold MailboxStore.get_mailbox_try_create
  cases hl : lookupMailbox s.mailboxes name with
  | some m =>
    simp only
    unfold MailboxStore.get_mailbox
    rw [hl]
  | none =>
    simp only
    unfold MailboxStore.get_mailbox
    simp only
    rw [lookupMailbox_append_self _ hl rfl]

theorem get_mailbox_try_create_name (s : MailboxStore) (name : String) :
    (s.get_mailbox_try_create name).2.name = name := by
  unfold MailboxStore.get_mailbox_try_create
  cases hl : lookupMailbox s.mailboxes name with
  | some m =>
    simp only
    exact lookupMailbox_name hl
  | none => rfl

/-- Case analysis of recency attribution in `append_messages`: the
caller's view is used when it names the destination, else the
registry's view, else the message is stored recent. -/
theorem append_recency_attribution_cases (s s1 : MailboxStore) (name : String)
    (ams : List AppendMessage) (sel? : Option SelectedMailbox)
    (mbx0 : KeyValMailbox)
    (htc : s.get_mailbox_try_create name = (s1, mbx0))
    (hro : mbx0.readonly = false) :
    (∀ sel, sel? = some sel → sel.name = mbx0.name →
      ∃ s' au view, KeyValSession.append_messages s name ams sel? =
          (s', Except.ok (au, some view)) ∧
        (∀ u ∈ au.uids, u ∈ view.session_flags.recent) ∧
        (∃ mbx', s'.get_mailbox name = Except.ok mbx' ∧
          ∀ m ∈ mbx'.messages, m ∈ mbx0.messages ∨ m.recent = false)) ∧
    (∀ r0, (∀ sel, sel? = some sel → ¬ sel.name = mbx0.name) →
      mbx0.any_selected = some r0 →
      ∃ s' au view?, KeyValSession.append_messages s name ams sel? =
          (s', Except.ok (au, view?)) ∧
        (∃ mbx' r1, s'.get_mailbox name = Except.ok mbx' ∧
          mbx'.any_selected = some r1 ∧
          (∀ u ∈ au.uids, u ∈ r1.session_flags.recent) ∧
          (∀ m ∈ mbx'.messages, m ∈ mbx0.messages ∨ m.recent = false))) ∧
    ((∀ sel, sel? = some sel → ¬ sel.name = mbx0.name) →
      mbx0.any_selected = none →
      ∃ s' au view?, KeyValSession.append_messages s name ams sel? =
          (s', Except.ok (au, view?)) ∧
        (∃ mbx', s'.get_mailbox name = Except.ok mbx' ∧
          mbx'.any_selected = none ∧
          ∀ m ∈ mbx'.messages, m ∈ mbx0.messages ∨ m.recent = true)) := by
  have hget1 : s1.get_mailbox name = Except.ok mbx0 := by
    have h := get_mailbox_try_create_get s name
    rw [htc] at h
    exact h
  have hnm : mbx0.name = name := by
    have h := get_mailbox_try_create_name s name
    rw [htc] at h
    exact h
  have hnro : ¬ mbx0.readonly = true := by
    rw [hro]
    exact Bool.false_ne_true
  refine ⟨?_, ?_, ?_⟩
  · intro sel hsel hn
    subst hsel
    unfold KeyValSession.append_messages
    rw [htc]
    simp only
    rw [if_neg hnro]
    have hfs : KeyValSession.find_selected (some sel) mbx0 = some sel := by
      unfold KeyValSession.find_selected
      simp only
      rw [if_pos hn]
    rw [hfs]
    simp only [Option.isSome_some]
    have hpf : decide (sel.name = mbx0.name) = true := decide_eq_true hn
    rw [if_pos hpf, if_pos hpf]
    obtain ⟨d, hd, hmono, huids, hnamed, hrod⟩ :=
      appendStep_fold_dsel true ams (mbx0, some sel, []) sel rfl
    rw [hd]
    simp only [KeyValSession.load_updates, Option.map_some']
    refine ⟨_, _, _, rfl, ?_, ?_⟩
    · intro u hu
      cases huids u hu with
      | inl h0 => cases h0
      | inr hr =>
        rw [(load_updates_some_preserves _ d _).2.2]
        exact hr
    · refine ⟨_, get_mailbox_put _ hget1
        ((appendStep_fold_mailbox true ams (mbx0, some sel, [])).1.trans hnm), ?_⟩
      intro m hm
      exact (appendStep_fold_mailbox true ams (mbx0, some sel, [])).2 m hm
  · intro r0 hnone hreg
    unfold KeyValSession.append_messages
    rw [htc]
    simp only
    rw [if_neg hnro]
    cases sel? with
    | none =>
      have hfs : KeyValSession.find_selected none mbx0 = some r0 := hreg
      rw [hfs]
      simp only [Option.isSome_some]
      rw [if_neg (show ¬ (false = true) from Bool.false_ne_true),
          if_neg (show ¬ (false = true) from Bool.false_ne_true)]
      obtain ⟨d, hd, hmono, huids, hnamed, hrod⟩ :=
        appendStep_fold_dsel true ams (mbx0, some r0, []) r0 rfl
      rw [hd]
      refine ⟨_, _, _, rfl, _, d, get_mailbox_put _ hget1
        ((appendStep_fold_mailbox true ams (mbx0, some r0, [])).1.trans hnm),
        rfl, ?_, ?_⟩
      · intro u hu
        cases huids u hu with
        | inl h0 => cases h0
        | inr hr => exact hr
      · intro m hm
        exact (appendStep_fold_mailbox true ams (mbx0, some r0, [])).2 m hm
    | some sel =>
      have hn' := hnone sel rfl
      have hfs : KeyValSession.find_selected (some sel) mbx0 = some r0 := by
        unfold KeyValSession.find_selected
        simp only
        rw [if_neg hn']
        exact hreg
      rw [hfs]
      simp only [Option.isSome_some]
      have hnotc : ¬ (decide (sel.name = mbx0.name) = true) := by
        rw [decide_eq_false hn']
        exact Bool.false_ne_true
      rw [if_neg hnotc, if_neg hnotc]
      obtain ⟨d, hd, hmono, huids, hnamed, hrod⟩ :=
        appendStep_fold_dsel true ams (mbx0, some r0, []) r0 rfl
      rw [hd]
      refine ⟨_, _, _, rfl, _, d, get_mailbox_put _ hget1
        ((appendStep_fold_mailbox true ams (mbx0, some r0, [])).1.trans hnm),
        rfl, ?_, ?_⟩
      · intro u hu
        cases huids u hu with
        | inl h0 => cases h0
        | inr hr => exact hr
      · intro m hm
        exact (appendStep_fold_mailbox true ams (mbx0, some r0, [])).2 m hm
  · intro hnone hreg
    unfold KeyValSession.append_messages
    rw [htc]
    simp only
    rw [if_neg hnro]
    cases sel? with
    | none =>
      have hfs : KeyValSession.find_selected none mbx0 = none := hreg
      rw [hfs]
      simp only [Option.isSome_none]
      rw [if_neg (show ¬ (false = true) from Bool.false_ne_true),
          if_neg (show ¬ (false = true) from Bool.false_ne_true)]
      rw [appendStep_fold_none false ams (mbx0, none, []) rfl]
      refine ⟨_, _, _, rfl, _, get_mailbox_put _ hget1
        ((appendStep_fold_mailbox false ams (mbx0, none, [])).1.trans hnm),
        rfl, ?_⟩
      intro m hm
      exact (appendStep_fold_mailbox false ams (mbx0, none, [])).2 m hm
    | some sel =>
      have hn' := hnone sel rfl
      have hfs : KeyValSession.find_selected (some sel) mbx0 = none := by
        unfold KeyValSession.find_selected
        simp only
        rw [if_neg hn']
        exact hreg
      rw [hfs]
      simp only [Option.isSome_none]
      have hnotc : ¬ (decide (sel.name = mbx0.name) = true) := by
        rw [decide_eq_false hn']
        exact Bool.false_ne_true
      rw [if_neg hnotc, if_neg hnotc]
      rw [appendStep_fold_none false ams (mbx0, none, []) rfl]
      refine ⟨_, _, _, rfl, _, get_mailbox_put _ hget1
        ((appendStep_fold_mailbox false ams (mbx0, none, [])).1.trans hnm),
        rfl, ?_⟩
      intro m hm
      exact (appendStep_fold_mailbox false ams (mbx0, none, [])).2 m hm

/-- Case analysis of recency attribution in `copy_messages`, mirroring
the append cases. -/
theorem copy_recency_attribution_cases (s sd : MailboxStore)
    (selc : SelectedMailbox) (ss : SequenceSet) (destName : String)
    (srcMbx dest0 : KeyValMailbox)
    (hsrc : s.get_mailbox selc.name = Except.ok srcMbx)
    (htd : s.get_mailbox_try_create destName = (sd, dest0))
    (hdro : dest0.readonly = false) :
    (selc.name = dest0.name →
      ∃ s' cu view, KeyValSession.copy_messages s selc ss destName =
          (s', Except.ok (cu, view)) ∧
        (∀ pr ∈ cu.pairs, pr.2 ∈ view.session_flags.recent) ∧
        (∃ mbx', s'.get_mailbox destName = Except.ok mbx' ∧
          ∀ m ∈ mbx'.messages, m ∈ dest0.messages ∨ m.recent = false)) ∧
    (∀ r0, ¬ selc.name = dest0.name → dest0.any_selected = some r0 →
      ∃ s' cu view, KeyValSession.copy_messages s selc ss destName =
          (s', Except.ok (cu, view)) ∧
        (∃ mbx' r1, s'.get_mailbox destName = Except.ok mbx' ∧
          mbx'.any_selected = some r1 ∧
          (∀ pr ∈ cu.pairs, pr.2 ∈ r1.session_flags.recent) ∧
          (∀ m ∈ mbx'.messages, m ∈ dest0.messages ∨ m.recent = false))) ∧
    (¬ selc.name = dest0.name → dest0.any_selected = none →
      ∃ s' cu view, KeyValSession.copy_messages s selc ss destName =
          (s', Except.ok (cu, view)) ∧
        (∃ mbx', s'.get_mailbox destName = Except.ok mbx' ∧
          mbx'.any_selected = none ∧
          ∀ m ∈ mbx'.messages, m ∈ dest0.messages ∨ m.recent = true)) := by
  have hgetd : sd.get_mailbox destName = Except.ok dest0 := by
    have h := get_mailbox_try_create_get s destName
    rw [htd] at h
    exact h
  have hnm : dest0.name = destName := by
    have h := get_mailbox_try_create_name s destName
    rw [htd] at h
    exact h
  have hnro : ¬ dest0.readonly = true := by
    rw [hdro]
    exact Bool.false_ne_true
  refine ⟨?_, ?_, ?_⟩
  · intro hn
    unfold KeyValSession.copy_messages
    rw [hsrc]
    simp only
    rw [htd]
    simp only
    rw [if_neg hnro]
    have hfs : KeyValSession.find_selected (some selc) dest0 = some selc := by
      unfold KeyValSession.find_selected
      simp only
      rw [if_pos hn]
    rw [hfs]
    simp only [Option.isSome_some]
    have hpf : decide (selc.name = dest0.name) = true := decide_eq_true hn
    rw [if_pos hpf, if_pos hpf]
    obtain ⟨d, hd, hmono, hprs, hnamed, hrod⟩ :=
      copyStep_fold_dsel true ((srcMbx.find ss).map (fun p => p.2))
        (dest0, some selc, []) selc rfl
    rw [hd]
    simp only [Option.getD_some]
    refine ⟨_, _, _, rfl, ?_, ?_⟩
    · intro pr hpr
      cases hprs pr hpr with
      | inl h0 => cases h0
      | inr hr =>
        rw [(load_updates_some_preserves _ d _).2.2]
        exact hr
    · refine ⟨_, get_mailbox_put _ hgetd
        ((copyStep_fold_mailbox true ((srcMbx.find ss).map (fun p => p.2))
          (dest0, some selc, [])).1.trans hnm), ?_⟩
      intro m hm
      exact (copyStep_fold_mailbox true ((srcMbx.find ss).map (fun p => p.2))
        (dest0, some selc, [])).2 m hm
  · intro r0 hn' hreg
    unfold KeyValSession.copy_messages
    rw [hsrc]
    simp only
    rw [htd]
    simp only
    rw [if_neg hnro]
    have hfs : KeyValSession.find_selected (some selc) dest0 = some r0 := by
      unfold KeyValSession.find_selected
      simp only
      rw [if_neg hn']
      exact hreg
    rw [hfs]
    simp only [Option.isSome_some]
    have hnotc : ¬ (decide (selc.name = dest0.name) = true) := by
      rw [decide_eq_false hn']
      exact Bool.false_ne_true
    rw [if_neg hnotc, if_neg hnotc]
    obtain ⟨d, hd, hmono, hprs, hnamed, hrod⟩ :=
      copyStep_fold_dsel true ((srcMbx.find ss).map (fun p => p.2))
        (dest0, some r0, []) r0 rfl
    rw [hd]
    refine ⟨_, _, _, rfl, _, d, get_mailbox_put _ hgetd
      ((copyStep_fold_mailbox true ((srcMbx.find ss).map (fun p => p.2))
        (dest0, some r0, [])).1.trans hnm), rfl, ?_, ?_⟩
    · intro pr hpr
      cases hprs pr hpr with
      | inl h0 => cases h0
      | inr hr => exact hr
    · intro m hm
      exact (copyStep_fold_mailbox true ((srcMbx.find ss).map (fun p => p.2))
        (dest0, some r0, [])).2 m hm
  · intro hn' hreg
    unfold KeyValSession.copy_messages
    rw [hsrc]
    simp only
    rw [htd]
    simp only
    rw [if_neg hnro]
    have hfs : KeyValSession.find_selected (some selc) dest0 = none := by
      unfold KeyValSession.find_selected
      simp only
      rw [if_neg hn']
      exact hreg
    rw [hfs]
    simp only [Option.isSome_none]
    have hnotc : ¬ (decide (selc.name = dest0.name) = true) := by
      rw [decide_eq_false hn']
      exact Bool.false_ne_true
    rw [if_neg hnotc, if_neg hnotc]
    rw [copyStep_fold_none false ((srcMbx.find ss).map (fun p => p.2))
      (dest0, none, []) rfl]
    refine ⟨_, _, _, rfl, _, get_mailbox_put _ hgetd
      ((copyStep_fold_mailbox false ((srcMbx.find ss).map (fun p => p.2))
        (dest0, none, [])).1.trans hnm), rfl, ?_⟩
    intro m hm
    exact (copyStep_fold_mailbox false ((srcMbx.find ss).map (fun p => p.2))
      (dest0, none, [])).2 m hm

/-- C3: for Append and Copy, each added message's recency is attributed
exactly by the destination-view rule: the caller's own view when it
names the destination, else any view in the destination's selection
registry; when such a view exists the new UID lands in that view's
session recent flags and the stored message has recent=false, and when
no view exists the stored message has recent=true. -/
theorem append_copy_recency_attribution (s s1 sd : MailboxStore)
    (name destName : String) (ams : List AppendMessage)
    (sel? : Option SelectedMailbox) (selc : SelectedMailbox)
    (ss : SequenceSet) (mbx0 dest0 srcMbx : KeyValMailbox)
    (htc : s.get_mailbox_try_create name = (s1, mbx0))
    (hro : mbx0.readonly = false)
    (hsrc : s.get_mailbox selc.name = Except.ok srcMbx)
    (htd : s.get_mailbox_try_create destName = (sd, dest0))
    (hdro : dest0.readonly = false) :
    (∀ sel, sel? = some sel → sel.name = mbx0.name →
      ∃ s' au view, KeyValSession.append_messages s name ams sel? =
          (s', Except.ok (au, some view)) ∧
        (∀ u ∈ au.uids, u ∈ view.session_flags.recent) ∧
        (∃ mbx', s'.get_mailbox name = Except.ok mbx' ∧
          ∀ m ∈ mbx'.messages, m ∈ mbx0.messages ∨ m.recent = false)) ∧
    (∀ r0, (∀ sel, sel? = some sel → ¬ sel.name = mbx0.name) →
      mbx0.any_selected = some r0 →
      ∃ s' au view?, KeyValSession.append_messages s name ams sel? =
          (s', Except.ok (au, view?)) ∧
        (∃ mbx' r1, s'.get_mailbox name = Except.ok mbx' ∧
          mbx'.any_selected = some r1 ∧
          (∀ u ∈ au.uids, u ∈ r1.session_flags.recent) ∧
          (∀ m ∈ mbx'.messages, m ∈ mbx0.messages ∨ m.recent = false))) ∧
    ((∀ sel, sel? = some sel → ¬ sel.name = mbx0.name) →
      mbx0.any_selected = none →
      ∃ s' au view?, KeyValSession.append_messages s name ams sel? =
          (s', Except.ok (au, view?)) ∧
        (∃ mbx', s'.get_mailbox name = Except.ok mbx' ∧
          mbx'.any_selected = none ∧
          ∀ m ∈ mbx'.messages, m ∈ mbx0.messages ∨ m.recent = true)) ∧
    (selc.name = dest0.name →
      ∃ s' cu view, KeyValSession.copy_messages s selc ss destName =
          (s', Except.ok (cu, view)) ∧
        (∀ pr ∈ cu.pairs, pr.2 ∈ view.session_flags.recent) ∧
        (∃ mbx', s'.get_mailbox destName = Except.ok mbx' ∧
          ∀ m ∈ mbx'.messages, m ∈ dest0.messages ∨ m.recent = false)) ∧
    (∀ r0, ¬ selc.name = dest0.name → dest0.any_selected = some r0 →
      ∃ s' cu view, KeyValSession.copy_messages s selc ss destName =
          (s', Except.ok (cu, view)) ∧
        (∃ mbx' r1, s'.get_mailbox destName = Except.ok mbx' ∧
          mbx'.any_selected = some r1 ∧
          (∀ pr ∈ cu.pairs, pr.2 ∈ r1.session_flags.recent) ∧
          (∀ m ∈ mbx'.messages, m ∈ dest0.messages ∨ m.recent = false))) ∧
    (¬ selc.name = dest0.name → dest0.any_selected = none →
      ∃ s' cu view, KeyValSession.copy_messages s selc ss destName =
          (s', Except.ok (cu, view)) ∧
        (∃ mbx', s'.get_mailbox destName = Except.ok mbx' ∧
          mbx'.any_selected = none ∧
          ∀ m ∈ mbx'.messages, m ∈ dest0.messages ∨ m.recent = true)) := by
  obtain ⟨a1, a2, a3⟩ :=
    append_recency_attribution_cases s s1 name ams sel? mbx0 htc hro
  obtain ⟨c1, c2, c3⟩ :=
    copy_recency_attribution_cases s sd selc ss destName srcMbx dest0
      hsrc htd hdro
  exact ⟨a1, a2, a3, c1, c2, c3⟩

theorem append_copy_recency_attribution_witness :
    (∀ sel, (none : Option SelectedMailbox) = some sel →
      sel.name = sampleDestMailbox.name →
      ∃ s' au view, KeyValSession.append_messages sampleStore "D"
          [(⟨[]⟩ : AppendMessage)] none = (s', Except.ok (au, some view)) ∧
        (∀ u ∈ au.uids, u ∈ view.session_flags.recent) ∧
        (∃ mbx', s'.get_mailbox "D" = Except.ok mbx' ∧
          ∀ m ∈ mbx'.messages, m ∈ sampleDestMailbox.messages ∨
            m.recent = false)) ∧
    (∀ r0, (∀ sel, (none : Option SelectedMailbox) = some sel →
        ¬ sel.name = sampleDestMailbox.name) →
      sampleDestMailbox.any_selected = some r0 →
      ∃ s' au view?, KeyValSession.append_messages sampleStore "D"
          [(⟨[]⟩ : AppendMessage)] none = (s', Except.ok (au, view?)) ∧
        (∃ mbx' r1, s'.get_mailbox "D" = Except.ok mbx' ∧
          mbx'.any_selected = some r1 ∧
          (∀ u ∈ au.uids, u ∈ r1.session_flags.recent) ∧
          (∀ m ∈ mbx'.messages, m ∈ sampleDestMailbox.messages ∨
            m.recent = false))) ∧
    ((∀ sel, (none : Option SelectedMailbox) = some sel →
        ¬ sel.name = sampleDestMailbox.name) →
      sampleDestMailbox.any_selected = none →
      ∃ s' au view?, KeyValSession.append_messages sampleStore "D"
          [(⟨[]⟩ : AppendMessage)] none = (s', Except.ok (au, view?)) ∧
        (∃ mbx', s'.get_mailbox "D" = Except.ok mbx' ∧
          mbx'.any_selected = none ∧
          ∀ m ∈ mbx'.messages, m ∈ sampleDestMailbox.messages ∨
            m.recent = true)) ∧
    ((SelectedMailbox.fresh "S" false).name = sampleDestMailbox.name →
      ∃ s' cu view, KeyValSession.copy_messages sampleStore
          (SelectedMailbox.fresh "S" false) (SequenceSet.all true) "D" =
          (s', Except.ok (cu, view)) ∧
        (∀ pr ∈ cu.pairs, pr.2 ∈ view.session_flags.recent) ∧
        (∃ mbx', s'.get_mailbox "D" = Except.ok mbx' ∧
          ∀ m ∈ mbx'.messages, m ∈ sampleDestMailbox.messages ∨
            m.recent = false)) ∧
    (∀ r0, ¬ (SelectedMailbox.fresh "S" false).name = sampleDestMailbox.name →
      sampleDestMailbox.any_selected = some r0 →
      ∃ s' cu view, KeyValSession.copy_messages sampleStore
          (SelectedMailbox.fresh "S" false) (SequenceSet.all true) "D" =
          (s', Except.ok (cu, view)) ∧
        (∃ mbx' r1, s'.get_mailbox "D" = Except.ok mbx' ∧
          mbx'.any_selected = some r1 ∧
          (∀ pr ∈ cu.pairs, pr.2 ∈ r1.session_flags.recent) ∧
          (∀ m ∈ mbx'.messages, m ∈ sampleDestMailbox.messages ∨
            m.recent = false))) ∧
    (¬ (SelectedMailbox.fresh "S" false).name = sampleDestMailbox.name →
      sampleDestMailbox.any_selected = none →
      ∃ s' cu view, KeyValSession.copy_messages sampleStore
          (SelectedMailbox.fresh "S" false) (SequenceSet.all true) "D" =
          (s', Except.ok (cu, view)) ∧
        (∃ mbx', s'.get_mailbox "D" = Except.ok mbx' ∧
          mbx'.any_selected = none ∧
          ∀ m ∈ mbx'.messages, m ∈ sampleDestMailbox.messages ∨
            m.recent = true)) :=
  append_copy_recency_attribution sampleStore sampleStore sampleStore "D" "D"
    [(⟨[]⟩ : AppendMessage)] none (SelectedMailbox.fresh "S" false)
    (SequenceSet.all true) sampleDestMailbox sampleDestMailbox
    sampleSrcMailbox rfl rfl rfl rfl rfl
